import Mathlib

/-!
Verification of the reaction-family kinetics core of RMG-Py
(`rmgpy/data/kinetics/family.py`): the reaction-recipe executor
(`ReactionRecipe.getReverse`, `ReactionRecipe.__apply`), rule lookup
(`KineticsFamily.getRateRule`), kinetics retrieval (`getKinetics`,
`__getAverageKinetics`, `estimateKineticsUsingRateRules`) and the
degeneracy bookkeeping of `__generateReactions` / `calculateDegeneracy` /
`__createReaction`.

Machine integers of the source are modelled as `Nat`/`Int`; Python
exceptions as `Except`; the external molecular-graph capability (atom
lookup by label, bond lookup/add/remove) as a pair of lookup functions.
-/

namespace RMG

/-! ## Generic helpers: stable insertion sort by a `Nat × Nat` key

`list.sort(key=lambda x: (rank, index))` in the source is Python's stable
sort by lexicographic comparison on the key tuple; the code then takes
element `[0]`.  We model it with a stable insertion sort and prove that the
head of the result carries a minimal key.
-/

/-- Python's `str.lower()` on an ASCII character (the family labels are
ASCII). -/
def pyCharLower (c : Char) : Char :=
  if 'A' ≤ c && c ≤ 'Z' then Char.ofNat (c.toNat + 32) else c

/-- Python's `str.lower()` (`self.label.lower()` in the source). -/
def pyLower (s : String) : String := ⟨s.data.map pyCharLower⟩

/-- Python's `str.startswith(p)`. -/
def pyStartsWith (s p : String) : Bool := List.isPrefixOf p.data s.data

/-- Lexicographic `≤` on `Nat × Nat` keys, as a boolean. -/
def keyLe (a b : Nat × Nat) : Bool :=
  Nat.blt a.1 b.1 || (Nat.beq a.1 b.1 && Nat.ble a.2 b.2)

/-- Insert `x` in front of the first element whose key is not below `x`'s
(the insertion step of a stable insertion sort). -/
def insertByKey (key : α → Nat × Nat) (x : α) : List α → List α
  | [] => [x]
  | y :: ys => if keyLe (key x) (key y) then x :: y :: ys else y :: insertByKey key x ys

/-- Stable insertion sort by a `Nat × Nat` key, modelling Python's
`list.sort(key=...)` with a 2-tuple key. -/
def sortByKey (key : α → Nat × Nat) : List α → List α
  | [] => []
  | x :: xs => insertByKey key x (sortByKey key xs)

/-! ## C4: `KineticsFamily.getRateRule` (family.py lines 767-797)

A rule entry carries the semicolon-joined template label, an integer rank
and an insertion index.  `data` stands for the opaque rate-law payload. -/

structure RuleEntry where
  label : String
  rank : Nat
  index : Nat
  data : Nat
deriving DecidableEq

/-- `';'.join([group.label for group in template])` (family.py line 773). -/
def templateLabels (template : List String) : String :=
  String.intercalate ";" template

/-- The entry-collection phase of `getRateRule` (family.py lines 772-784):
all stored entries whose label equals the joined template labels, plus --
for the `r_recombination` family with two distinct slots -- the entries
matching the reversed template.  (The source indexes `template[1]`, which
presupposes at least two slots for that family; we read the first two
slots with `get?`.) -/
def matchedRuleEntries (familyLabel : String) (rules : List RuleEntry)
    (template : List String) : List RuleEntry :=
  let entries := rules.filter (fun e => e.label == templateLabels template)
  if pyLower familyLabel == "r_recombination" && template.get? 0 != template.get? 1 then
    entries ++ rules.filter (fun e => e.label == templateLabels template.reverse)
  else
    entries

/-- `KineticsFamily.getRateRule` (family.py lines 767-797): exactly one
match is returned as is; among several matches, entries of positive rank
are preferred when one exists and the survivor with the smallest
`(rank, index)` key is returned, otherwise the match with the smallest
`index`; no match raises `ValueError`. -/
def getRateRule (familyLabel : String) (rules : List RuleEntry)
    (template : List String) : Except String RuleEntry :=
  match matchedRuleEntries familyLabel rules template with
  | [e] => Except.ok e
  | [] => Except.error ("No entry for template " ++ templateLabels template ++ ".")
  | es =>
    if es.any (fun e => decide (0 < e.rank)) then
      match sortByKey (fun e => (e.rank, e.index)) (es.filter (fun e => decide (0 < e.rank))) with
      | e :: _ => Except.ok e
      | [] => Except.error "unreachable: filter of a list with a positive-rank entry"
    else
      match sortByKey (fun e => (e.index, 0)) es with
      | e :: _ => Except.ok e
      | [] => Except.error "unreachable: sort of a non-empty list"

/-! ## C2: unit normalization inside `KineticsFamily.__getAverageKinetics`
(family.py lines 1779-1787)

The source reads

  `if Aunits == 'cm^3/(mol*s)' or 'cm^3/(molecule*s)' or 'm^3/(molecule*s)':`

so the second and third operands of `or` are bare string literals whose
Python truth value is tested, not compared against `Aunits`.  We transcribe
that literally via `pyStrTruthy`. -/

/-- Truth value of a Python string: non-empty strings are truthy. -/
def pyStrTruthy (s : String) : Bool := s != ""

/-- The `Aunits` normalization of `__getAverageKinetics` (family.py lines
1779-1787), transcribed with Python's operand-truthiness semantics for
`or`; the final `else` models `raise Exception('Invalid units ...')`. -/
def getAverageKineticsAunits (Aunits : String) : Except String String :=
  if (Aunits == "cm^3/(mol*s)") || pyStrTruthy "cm^3/(molecule*s)"
      || pyStrTruthy "m^3/(molecule*s)" then
    Except.ok "m^3/(mol*s)"
  else if (Aunits == "cm^6/(mol^2*s)") || pyStrTruthy "cm^6/(molecule^2*s)"
      || pyStrTruthy "m^6/(molecule^2*s)" then
    Except.ok "m^6/(mol^2*s)"
  else if (Aunits == "s^-1") || (Aunits == "m^3/(mol*s)") || (Aunits == "m^6/(mol^2*s)") then
    Except.ok Aunits
  else
    Except.error ("Invalid units " ++ Aunits ++ " for averaging kinetics.")

/-! ## C3: `KineticsFamily.getKinetics` with `returnAllKinetics=False` and
no estimator argument (family.py lines 1692-1747)

The depositories are modelled by their hit lists (the results of
`getKineticsFromDepository`), and the two template estimates
(`getKineticsForTemplate` with `'rate rules'` resp. `'group additivity'`)
by `Option Nat` values: `none` is Python's falsy `None`, `some k` a truthy
kinetics object `k`.  The function returns the `kinetics` value handed to
the `return` statement together with a tag for the branch it came from. -/

structure DepositoryHit where
  rank : Nat
  index : Nat
  kin : Nat
deriving DecidableEq

inductive KinSource where
  | depository
  | estimate
deriving DecidableEq

/-- The per-depository selection of `getKinetics` (family.py lines
1712-1717): if some but not all hits have rank 0, drop the rank-0 hits;
then sort by `(rank, index)`.  The caller takes the head. -/
def selectDepositoryHits (hits : List DepositoryHit) : List DepositoryHit :=
  let hits :=
    if hits.any (fun x => x.rank == 0) && !(hits.all (fun x => x.rank == 0)) then
      hits.filter (fun x => x.rank != 0)
    else hits
  sortByKey (fun x => (x.rank, x.index)) hits

/-- `getKinetics` for `returnAllKinetics=False` and `estimator=''`
(family.py lines 1703-1745): scan the depositories in order and return the
best hit of the first depository with any hit; otherwise compute the rate
rules estimate into `kinetics` and return it if truthy; otherwise compute
the group additivity estimate into `kinetics2` and -- as in the source's
line 1741 `return kinetics, None, None, True` -- return the variable
`kinetics`, not `kinetics2`; otherwise raise
`UndeterminableKineticsError`. -/
def getKineticsFirstMatch :
    List (List DepositoryHit) → Option Nat → Option Nat →
      Except String (Option Nat × KinSource)
  | depo :: rest, rateRulesKin, groupAdditivityKin =>
    if depo.isEmpty then
      getKineticsFirstMatch rest rateRulesKin groupAdditivityKin
    else
      match selectDepositoryHits depo with
      | e :: _ => Except.ok (some e.kin, KinSource.depository)
      | [] => Except.error "unreachable: sort of a non-empty hit list"
  | [], rateRulesKin, groupAdditivityKin =>
    let kinetics := rateRulesKin
    if kinetics.isSome then
      Except.ok (kinetics, KinSource.estimate)
    else
      let kinetics2 := groupAdditivityKin
      if kinetics2.isSome then
        Except.ok (kinetics, KinSource.estimate)
      else
        Except.error "UndeterminableKineticsError"

/-! ## C5: the degeneracy halving of `KineticsFamily.__generateReactions`
(family.py lines 1511-1519) -/

/-- The post-deduplication correction (family.py lines 1516-1519): when the
two reactant slots hold the same species, or the family label starts with
`r_recombination`, every surviving reaction must have an even raw
degeneracy (`assert(rxn.degeneracy % 2 == 0)`, modelled as an error on
violation) and it is halved; otherwise the degeneracies pass through. -/
def halveDegeneracies : List Nat → Except String (List Nat)
  | [] => Except.ok []
  | d :: ds =>
    if d % 2 == 0 then
      match halveDegeneracies ds with
      | Except.ok rest => Except.ok (d / 2 :: rest)
      | Except.error e => Except.error e
    else
      Except.error "AssertionError: rxn.degeneracy % 2 == 0"

/-- The guarded form of the correction, including the condition of
family.py line 1516. -/
def correctDegeneracies (sameReactants : Bool) (familyLabel : String)
    (degeneracies : List Nat) : Except String (List Nat) :=
  if sameReactants || pyStartsWith (pyLower familyLabel) "r_recombination" then
    halveDegeneracies degeneracies
  else
    Except.ok degeneracies

/-! ## C6: `KineticsFamily.calculateDegeneracy` (family.py lines 1294-1302)

The constrained re-generation `__generateReactions(reactants,
products=products, forward=True)` is taken as an oracle parameter
`generate`; `calculateDegeneracy` demands exactly one resulting reaction
and returns its degeneracy, raising otherwise. -/

structure GeneratedReaction where
  reactants : List Nat
  products : List Nat
  degeneracy : Nat
deriving DecidableEq

/-- `calculateDegeneracy` (family.py lines 1294-1302). -/
def calculateDegeneracy (generate : List Nat → List Nat → List GeneratedReaction)
    (reactants products : List Nat) : Except String Nat :=
  let reactions := generate reactants products
  if h : reactions.length = 1 then
    Except.ok (reactions.get ⟨0, by omega⟩).degeneracy
  else
    Except.error "Unable to calculate degeneracy for reaction."

/-! ## C10: `KineticsFamily.__createReaction` (family.py lines 1201-1235)

Molecules are abstracted to `Nat` identifiers and `isIsomorphic` to a
boolean oracle `iso`. -/

/-- The early-return identity test of `__createReaction` (family.py lines
1209-1216): one reactant isomorphic to the one product, or two reactants
isomorphic to the two products under the direct or the swapped pairing. -/
def identityCheck (iso : Nat → Nat → Bool) (reactants products : List Nat) : Bool :=
  match reactants, products with
  | [r0], [p0] => iso r0 p0
  | [r0, r1], [p0, p1] => (iso r0 p0 && iso r1 p1) || (iso r0 p1 && iso r1 p0)
  | _, _ => false

/-- `__createReaction` (family.py lines 1201-1235): a candidate passing
the identity test becomes a reaction with the reactant and product lists
swapped when `isForward` is false, with degeneracy 1. -/
def createReaction (iso : Nat → Nat → Bool) (reactants products : List Nat)
    (isForward : Bool) : Option GeneratedReaction :=
  if identityCheck iso reactants products then
    none
  else
    some { reactants := if isForward then reactants else products
           products := if isForward then products else reactants
           degeneracy := 1 }

/-! ## C1: the widening step of
`KineticsFamily.estimateKineticsUsingRateRules` (family.py lines
1841-1853)

Template tree nodes are their label strings; the generalization edge is a
parent lookup.  When no rule is found at the current list of probe
templates, the source builds the next list by replacing, in every current
template, each slot that has a parent by that parent, appending each new
template unless it is already in the new list. -/

/-- Parent lookup in an association list of `(child, parent)` edges. -/
def lookupParent (edges : List (String × String)) (label : String) : Option String :=
  (edges.find? (fun p => p.1 == label)).map (fun p => p.2)

/-- The `else` branch of the search loop (family.py lines 1841-1853):

```
templateList0 = templateList; templateList = []
for template0 in templateList0:
    for index in range(len(template0)):
        if not template0[index].parent: continue
        t = template0[:]; t[index] = t[index].parent
        if t not in templateList: templateList.append(t)
```
-/
def widenSlotStep (parent : String → Option String) (template0 : List String)
    (templateList : List (List String)) (index : Nat) : List (List String) :=
  match parent (template0.getD index "") with
  | none => templateList
  | some p =>
    let t := template0.set index p
    if t ∈ templateList then templateList else templateList ++ [t]

def widenTemplateStep (parent : String → Option String)
    (templateList : List (List String)) (template0 : List String) : List (List String) :=
  (List.range template0.length).foldl (widenSlotStep parent template0) templateList

def widenTemplateList (parent : String → Option String)
    (templateList0 : List (List String)) : List (List String) :=
  templateList0.foldl (widenTemplateStep parent) []

/-- One template arises from another by replacing the slot at one position
with that slot's parent. -/
def ParentStep (parent : String → Option String) (template0 t : List String) : Prop :=
  ∃ index, index < template0.length ∧
    ∃ p, parent (template0.getD index "") = some p ∧ t = template0.set index p

/-- Modelled from the spec (claim C1): "each slot independently expands to
its direct children if any (else stays a singleton of itself), form the
cartesian product of all slot-expansions minus the already-tried exact
tuple".  Used only to compare the spec's description with the code's
`widenTemplateList`. -/
def specChildrenWiden (children : String → List String)
    (tried : List (List String)) (template : List String) : List (List String) :=
  let expansions := template.map (fun slot =>
    match children slot with
    | [] => [slot]
    | cs => cs)
  (expansions.foldr (fun choices acc =>
    choices.flatMap (fun c => acc.map (fun t => c :: t))) [[]]).filter
    (fun t => !(tried.contains t))

/-! ## A model of Python's `int()` and `str()` on decimal integers

`ReactionRecipe.getReverse` stores CHANGE_BOND deltas through
`str(-int(action[2]))` (family.py line 180) and `ReactionRecipe.__apply`
parses `int(info)` / `int(change)` (family.py lines 220, 246), so the
number arguments of actions live as strings.  `pyInt?` models `int()` on
an optional sign followed by decimal digits (returning `none` where Python
raises `ValueError`; surrounding whitespace and other bases are not used
by the recipe code and are not modelled), and `pyStrOfInt` models `str()`
of an integer. -/

def isDigitChar (c : Char) : Bool := decide ('0' ≤ c) && decide (c ≤ '9')

/-- Accumulate the value of a most-significant-first digit list. -/
def digitsToNat (acc : Nat) : List Char → Nat
  | [] => acc
  | c :: cs => digitsToNat (acc * 10 + (c.toNat - 48)) cs

/-- Parse a non-empty all-digit character list. -/
def parseNatDigits? (cs : List Char) : Option Nat :=
  if !cs.isEmpty && cs.all isDigitChar then some (digitsToNat 0 cs) else none

/-- Parse after the optional sign character. -/
def pyIntSigned (c : Char) (rest : List Char) : Option Int :=
  if c = '+' then (parseNatDigits? rest).map Int.ofNat
  else if c = '-' then (parseNatDigits? rest).map (fun n => -(Int.ofNat n))
  else (parseNatDigits? (c :: rest)).map Int.ofNat

/-- Python's `int()` on a string holding an optionally signed decimal
numeral. -/
def pyInt? (s : String) : Option Int :=
  match s.data with
  | [] => none
  | c :: rest => pyIntSigned c rest

/-- Decimal digits of `n`, least significant first.  The first argument is
structural-recursion fuel; `n + 1` steps always suffice. -/
def natToRevDigitsAux : Nat → Nat → List Char
  | 0, _ => []
  | fuel + 1, n =>
    if n < 10 then [Char.ofNat (n % 10 + 48)]
    else Char.ofNat (n % 10 + 48) :: natToRevDigitsAux fuel (n / 10)

/-- Python's `str()` of a natural number. -/
def pyStrOfNat (n : Nat) : String :=
  ⟨(natToRevDigitsAux (n + 1) n).reverse⟩

/-- Python's `str()` of an integer. -/
def pyStrOfInt (i : Int) : String :=
  if i < 0 then "-" ++ pyStrOfNat i.natAbs else pyStrOfNat i.natAbs

/-! ## C8: `ReactionRecipe.getReverse` (family.py lines 171-189)

An action is a list of strings, exactly as in the source (`loadRecipe`,
family.py lines 574-583, stores the tokens unchanged apart from upcasing
the tag).  `getReverse` builds the reversed recipe action by action:
CHANGE_BOND negates its delta through `str(-int(...))`, FORM_BOND and
BREAK_BOND swap, LOSE_RADICAL and GAIN_RADICAL swap -- and any action
whose tag matches none of the five `if`/`elif` arms is silently dropped.
Python raises `ValueError` on an unparseable delta and `IndexError` on a
too-short action; both become `Except.error`. -/

def getReverseAction (action : List String) : Except String (Option (List String)) :=
  match action with
  | "CHANGE_BOND" :: a1 :: a2 :: a3 :: _ =>
    match pyInt? a2 with
    | some k => Except.ok (some ["CHANGE_BOND", a1, pyStrOfInt (-k), a3])
    | none => Except.error "ValueError: invalid literal for int()"
  | "FORM_BOND" :: a1 :: a2 :: a3 :: _ => Except.ok (some ["BREAK_BOND", a1, a2, a3])
  | "BREAK_BOND" :: a1 :: a2 :: a3 :: _ => Except.ok (some ["FORM_BOND", a1, a2, a3])
  | "LOSE_RADICAL" :: a1 :: a2 :: _ => Except.ok (some ["GAIN_RADICAL", a1, a2])
  | "GAIN_RADICAL" :: a1 :: a2 :: _ => Except.ok (some ["LOSE_RADICAL", a1, a2])
  | tag :: _ =>
    if tag == "CHANGE_BOND" || tag == "FORM_BOND" || tag == "BREAK_BOND"
        || tag == "LOSE_RADICAL" || tag == "GAIN_RADICAL" then
      Except.error "IndexError: list index out of range"
    else
      Except.ok none
  | [] => Except.error "IndexError: list index out of range"

/-- `ReactionRecipe.getReverse` (family.py lines 171-189) on the action
list of a recipe. -/
def getReverse : List (List String) → Except String (List (List String))
  | [] => Except.ok []
  | action :: rest =>
    match getReverseAction action with
    | Except.error e => Except.error e
    | Except.ok none => getReverse rest
    | Except.ok (some ra) =>
      match getReverse rest with
      | Except.error e => Except.error e
      | Except.ok rs => Except.ok (ra :: rs)

/-- A recipe action of the documented shape: one of the five known tags
with its documented arity, and -- for CHANGE_BOND -- a delta string that
is the canonical decimal representation of an integer (as written by
`str()`).  -/
def actionWellFormed (action : List String) : Bool :=
  match action with
  | ["CHANGE_BOND", _, d, _] =>
    match pyInt? d with
    | some k => pyStrOfInt k == d
    | none => false
  | ["FORM_BOND", _, _, _] => true
  | ["BREAK_BOND", _, _, _] => true
  | ["GAIN_RADICAL", _, _] => true
  | ["LOSE_RADICAL", _, _] => true
  | _ => false

/-! ## The labeled molecular graph capability

`ReactionRecipe.__apply` reaches the molecular graph only through the
external capability listed in the spec (label-based atom lookup, bond
lookup/add/remove, per-atom radical-electron counter); the graph type
itself lives outside this repository.  We model exactly that interface: a
graph assigns to each atom label an optional radical-electron count
(`none` when no atom carries the label) and to each ordered pair of
labels an optional bond order.  Bonds are undirected, so every bond
operation updates both orientations of its label pair; well-formed graphs
are symmetric.  Atoms without labels are untouched by every recipe action
and are omitted.  Radical counts and bond orders are `Int` (the source
performs unchecked `+=`/`-=` arithmetic on them). -/

structure MolGraph where
  radicals : String → Option Int
  bonds : String → String → Option Int

/-- Both orientations of the unordered label pair `(a, b)`. -/
def onPair (a b x y : String) : Bool := (x == a && y == b) || (x == b && y == a)

/-- `struct.getLabeledAtom(label)`, reduced to the radical counter the
recipe code reads and writes; `none` models Python's `None`. -/
def getLabeledAtom (g : MolGraph) (label : String) : Option Int := g.radicals label

/-- `struct.getBond(atom1, atom2)` as an optional bond order. -/
def getBond (g : MolGraph) (l1 l2 : String) : Option Int := g.bonds l1 l2

/-- `struct.hasBond(atom1, atom2)`. -/
def hasBond (g : MolGraph) (l1 l2 : String) : Bool := (g.bonds l1 l2).isSome

/-- Rewrite the bond slot of the unordered pair `(a, b)` (both
orientations) through `f`, leaving every other pair alone.  All three bond
operations of the recipe code are instances. -/
def bondMap (a b : String) (f : Option Int → Option Int) (g : MolGraph) : MolGraph :=
  { g with bonds := fun x y => if onPair a b x y then f (g.bonds x y) else g.bonds x y }

/-- `struct.addBond(Bond(atom1, atom2, order))`: the external graph stores
edges in per-vertex dictionaries, so adding over an existing bond silently
overwrites it. -/
def addBond (g : MolGraph) (a b : String) (order : Int) : MolGraph :=
  bondMap a b (fun _ => some order) g

/-- `struct.removeBond(bond)` for the bond between labels `a` and `b`. -/
def removeBond (g : MolGraph) (a b : String) : MolGraph :=
  bondMap a b (fun _ => none) g

/-- `bond.applyAction(['CHANGE_BOND', ...])`: add `delta` to the order of
the existing bond between `a` and `b`. -/
def changeBond (g : MolGraph) (a b : String) (delta : Int) : MolGraph :=
  bondMap a b (fun o => o.map (fun v => v + delta)) g

/-- `atom.applyAction(['GAIN_RADICAL', label, 1])` iterated: add `delta`
to the radical-electron counter of the atom labeled `l`. -/
def setRadical (g : MolGraph) (l : String) (delta : Int) : MolGraph :=
  { g with radicals := fun x => if x == l then (g.radicals x).map (fun v => v + delta) else g.radicals x }

/-- A concrete graph from association lists of labeled radical counts and
bonds; the bond lookup accepts either orientation, so these graphs are
symmetric by construction. -/
def MolGraph.ofLists (rads : List (String × Int))
    (bnds : List (String × String × Int)) : MolGraph where
  radicals := fun x => ((rads.find? (fun a => a.1 == x)).map (fun a => a.2))
  bonds := fun x y =>
    ((bnds.find? (fun b => onPair b.1 b.2.1 x y)).map (fun b => b.2.2))

/-- Two graphs with the same atom-label and bond lookups.  Since every
atom of the model is identified by its label, this is graph isomorphism
with labels, bond orders and radical counts preserved. -/
def MolGraph.equiv (g h : MolGraph) : Prop :=
  (∀ l, g.radicals l = h.radicals l) ∧ (∀ x y, g.bonds x y = h.bonds x y)

/-- Bonds are undirected: the lookup is orientation-independent. -/
def MolGraph.Symm (g : MolGraph) : Prop :=
  ∀ x y, g.bonds x y = g.bonds y x

/-! ## C7, C9: `ReactionRecipe.__apply` (family.py lines 191-263) -/

/-- The errors recipe application can surface: `InvalidActionError`
(raised explicitly by `__apply`) versus exceptions propagating from the
external graph/number layer (`ValueError` from `int()` or argument
unpacking, the missing-bond error of `getBond`, `IndexError`). -/
inductive ApplyErr where
  | invalidAction (msg : String)
  | external (msg : String)
deriving DecidableEq

def isBondActionTag (tag : String) : Bool :=
  tag == "CHANGE_BOND" || tag == "FORM_BOND" || tag == "BREAK_BOND"

def isRadicalActionTag (tag : String) : Bool :=
  tag == "LOSE_RADICAL" || tag == "GAIN_RADICAL"

/-- One iteration of the action loop of `ReactionRecipe.__apply`
(family.py lines 202-261).  `doForward` selects the forward or reverse
reading of the action.  The connectivity-cache reset/update calls are
no-ops for the lookups modelled here. -/
def applyAction (struct : MolGraph) (doForward : Bool) (action : List String) :
    Except ApplyErr MolGraph :=
  match action with
  | [] => Except.error (ApplyErr.external "IndexError: list index out of range")
  | tag :: args =>
    if isBondActionTag tag then
      match args with
      | [label1, info, label2] =>
        let atom1 := getLabeledAtom struct label1
        let atom2 := getLabeledAtom struct label2
        if atom1.isNone || atom2.isNone || label1 == label2 then
          Except.error (ApplyErr.invalidAction "Invalid atom labels encountered.")
        else if tag == "CHANGE_BOND" then
          match pyInt? info with
          | none => Except.error (ApplyErr.external "ValueError: invalid literal for int()")
          | some delta =>
            match getBond struct label1 label2 with
            | none => Except.error (ApplyErr.external "getBond: no bond between atoms")
            | some _ =>
              Except.ok (changeBond struct label1 label2 (if doForward then delta else -delta))
        else if (tag == "FORM_BOND" && doForward) || (tag == "BREAK_BOND" && !doForward) then
          Except.ok (addBond struct label1 label2 1)
        else
          if !(hasBond struct label1 label2) then
            Except.error (ApplyErr.invalidAction "Attempted to remove a nonexistent bond.")
          else
            Except.ok (removeBond struct label1 label2)
      | _ => Except.error (ApplyErr.external "ValueError: unpacking action parameters")
    else if isRadicalActionTag tag then
      match args with
      | [label, changeStr] =>
        match pyInt? changeStr with
        | none => Except.error (ApplyErr.external "ValueError: invalid literal for int()")
        | some change =>
          match getLabeledAtom struct label with
          | none =>
            Except.error (ApplyErr.invalidAction
              "Unable to find atom with label while applying reaction recipe.")
          | some _ =>
            if (tag == "GAIN_RADICAL" && doForward) || (tag == "LOSE_RADICAL" && !doForward) then
              Except.ok (setRadical struct label (Int.ofNat change.toNat))
            else
              Except.ok (setRadical struct label (-(Int.ofNat change.toNat)))
      | _ => Except.error (ApplyErr.external "ValueError: unpacking action parameters")
    else
      Except.error (ApplyErr.invalidAction ("Unknown action " ++ tag ++ " encountered."))

/-- The action loop of `__apply` over the whole recipe. -/
def applyActions (struct : MolGraph) (doForward : Bool) :
    List (List String) → Except ApplyErr MolGraph
  | [] => Except.ok struct
  | action :: rest =>
    match applyAction struct doForward action with
    | Except.error e => Except.error e
    | Except.ok g => applyActions g doForward rest

/-- `ReactionRecipe.applyForward` (family.py lines 265-270). -/
def applyForward (struct : MolGraph) (actions : List (List String)) :
    Except ApplyErr MolGraph :=
  applyActions struct true actions

/-- `ReactionRecipe.applyReverse` (family.py lines 272-277). -/
def applyReverse (struct : MolGraph) (actions : List (List String)) :
    Except ApplyErr MolGraph :=
  applyActions struct false actions

/-! ### Pure effect functions and preconditions for the round-trip analysis

For reasoning, each action is classified into a structured view; the
effect functions and preconditions are defined on the view and agree with
`applyAction` by the bridge lemmas below. -/

inductive ActionView where
  | changeBond (l1 : String) (delta : Int) (l2 : String)
  | formBond (l1 l2 : String)
  | breakBond (l1 l2 : String)
  | gainRadical (l : String) (k : Int)
  | loseRadical (l : String) (k : Int)
  | other
deriving DecidableEq

/-- Classify an action list.  Malformed actions (wrong arity, unknown tag,
unparseable number argument) all collapse to `other`. -/
def viewAction (action : List String) : ActionView :=
  match action with
  | ["CHANGE_BOND", l1, d, l2] =>
    match pyInt? d with
    | some delta => ActionView.changeBond l1 delta l2
    | none => ActionView.other
  | ["FORM_BOND", l1, _, l2] => ActionView.formBond l1 l2
  | ["BREAK_BOND", l1, _, l2] => ActionView.breakBond l1 l2
  | ["GAIN_RADICAL", l, c] =>
    match pyInt? c with
    | some k => ActionView.gainRadical l (Int.ofNat k.toNat)
    | none => ActionView.other
  | ["LOSE_RADICAL", l, c] =>
    match pyInt? c with
    | some k => ActionView.loseRadical l (Int.ofNat k.toNat)
    | none => ActionView.other
  | _ => ActionView.other

/-- The unordered label pair a (viewed) bond action manipulates. -/
def viewBondPair : ActionView → Option (String × String)
  | ActionView.changeBond l1 _ l2 => some (l1, l2)
  | ActionView.formBond l1 l2 => some (l1, l2)
  | ActionView.breakBond l1 l2 => some (l1, l2)
  | _ => none

/-- The graph update a successful forward application of one action
performs (identity on malformed actions). -/
def fwdEffectV : ActionView → MolGraph → MolGraph
  | ActionView.changeBond l1 delta l2, g => changeBond g l1 l2 delta
  | ActionView.formBond l1 l2, g => addBond g l1 l2 1
  | ActionView.breakBond l1 l2, g => removeBond g l1 l2
  | ActionView.gainRadical l k, g => setRadical g l k
  | ActionView.loseRadical l k, g => setRadical g l (-k)
  | ActionView.other, g => g

/-- The graph update a successful reverse application of one action
performs. -/
def revEffectV : ActionView → MolGraph → MolGraph
  | ActionView.changeBond l1 delta l2, g => changeBond g l1 l2 (-delta)
  | ActionView.formBond l1 l2, g => removeBond g l1 l2
  | ActionView.breakBond l1 l2, g => addBond g l1 l2 1
  | ActionView.gainRadical l k, g => setRadical g l (-k)
  | ActionView.loseRadical l k, g => setRadical g l k
  | ActionView.other, g => g

def fwdEffect (action : List String) (g : MolGraph) : MolGraph :=
  fwdEffectV (viewAction action) g

def revEffect (action : List String) (g : MolGraph) : MolGraph :=
  revEffectV (viewAction action) g

/-- Forward effects of a whole action list. -/
def fwdAll (actions : List (List String)) (g : MolGraph) : MolGraph :=
  match actions with
  | [] => g
  | a :: rest => fwdAll rest (fwdEffect a g)

/-- The unordered label pair a bond action manipulates. -/
def bondActionPairOf? (action : List String) : Option (String × String) :=
  match action with
  | [tag, l1, _, l2] => if isBondActionTag tag then some (l1, l2) else none
  | _ => none

/-- Unordered equality of label pairs. -/
def upPairEq (p q : String × String) : Bool :=
  (p.1 == q.1 && p.2 == q.2) || (p.1 == q.2 && p.2 == q.1)

/-- All unordered pairs in the list are pairwise distinct. -/
def pairwiseDisjointPairs : List (String × String) → Bool
  | [] => true
  | p :: rest => rest.all (fun q => !upPairEq p q) && pairwiseDisjointPairs rest

/-- Per-action applicability against the starting graph: the documented
shape, resolvable and distinct labels, and the bond state the round trip
needs -- CHANGE_BOND over an existing bond, FORM_BOND over a missing
bond, BREAK_BOND over an existing single (order 1) bond. -/
def actionPreOK (g : MolGraph) (action : List String) : Bool :=
  match action with
  | ["CHANGE_BOND", l1, d, l2] =>
    (pyInt? d).isSome && (getLabeledAtom g l1).isSome && (getLabeledAtom g l2).isSome
      && l1 != l2 && hasBond g l1 l2
  | ["FORM_BOND", l1, _, l2] =>
    (getLabeledAtom g l1).isSome && (getLabeledAtom g l2).isSome
      && l1 != l2 && !(hasBond g l1 l2)
  | ["BREAK_BOND", l1, _, l2] =>
    (getLabeledAtom g l1).isSome && (getLabeledAtom g l2).isSome
      && l1 != l2 && (getBond g l1 l2 == some 1)
  | ["GAIN_RADICAL", l, c] => (pyInt? c).isSome && (getLabeledAtom g l).isSome
  | ["LOSE_RADICAL", l, c] => (pyInt? c).isSome && (getLabeledAtom g l).isSome
  | _ => false

/-- Applicability of the reverse reading of one action against the graph
it is applied to: resolvable distinct labels, and an existing bond for
CHANGE_BOND and for FORM_BOND (whose reverse breaks the bond);
BREAK_BOND's reverse forms a bond unconditionally. -/
def actionRevOK (g : MolGraph) (action : List String) : Bool :=
  match action with
  | ["CHANGE_BOND", l1, d, l2] =>
    (pyInt? d).isSome && (getLabeledAtom g l1).isSome && (getLabeledAtom g l2).isSome
      && l1 != l2 && hasBond g l1 l2
  | ["FORM_BOND", l1, _, l2] =>
    (getLabeledAtom g l1).isSome && (getLabeledAtom g l2).isSome
      && l1 != l2 && hasBond g l1 l2
  | ["BREAK_BOND", l1, _, l2] =>
    (getLabeledAtom g l1).isSome && (getLabeledAtom g l2).isSome && l1 != l2
  | ["GAIN_RADICAL", l, c] => (pyInt? c).isSome && (getLabeledAtom g l).isSome
  | ["LOSE_RADICAL", l, c] => (pyInt? c).isSome && (getLabeledAtom g l).isSome
  | _ => false

/-- `actionPreOK` on the view. -/
def viewPreOK (g : MolGraph) : ActionView → Bool
  | ActionView.changeBond l1 _ l2 =>
    (getLabeledAtom g l1).isSome && (getLabeledAtom g l2).isSome
      && l1 != l2 && hasBond g l1 l2
  | ActionView.formBond l1 l2 =>
    (getLabeledAtom g l1).isSome && (getLabeledAtom g l2).isSome
      && l1 != l2 && !(hasBond g l1 l2)
  | ActionView.breakBond l1 l2 =>
    (getLabeledAtom g l1).isSome && (getLabeledAtom g l2).isSome
      && l1 != l2 && (getBond g l1 l2 == some 1)
  | ActionView.gainRadical l _ => (getLabeledAtom g l).isSome
  | ActionView.loseRadical l _ => (getLabeledAtom g l).isSome
  | ActionView.other => false

/-- `actionRevOK` on the view. -/
def viewRevOK (g : MolGraph) : ActionView → Bool
  | ActionView.changeBond l1 _ l2 =>
    (getLabeledAtom g l1).isSome && (getLabeledAtom g l2).isSome
      && l1 != l2 && hasBond g l1 l2
  | ActionView.formBond l1 l2 =>
    (getLabeledAtom g l1).isSome && (getLabeledAtom g l2).isSome
      && l1 != l2 && hasBond g l1 l2
  | ActionView.breakBond l1 l2 =>
    (getLabeledAtom g l1).isSome && (getLabeledAtom g l2).isSome && l1 != l2
  | ActionView.gainRadical l _ => (getLabeledAtom g l).isSome
  | ActionView.loseRadical l _ => (getLabeledAtom g l).isSome
  | ActionView.other => false

/-- The amended round-trip precondition (claim C7): every action
applicable against `g` as above, and no two bond actions touching the
same unordered label pair. -/
def recipeRoundTripOK (g : MolGraph) (actions : List (List String)) : Bool :=
  actions.all (actionPreOK g) && pairwiseDisjointPairs (actions.filterMap bondActionPairOf?)

/-! ### C9 predicates -/

/-- Did recipe application fail with `InvalidActionError` (as opposed to
succeeding or propagating an external exception)? -/
def isInvalidActionResult : Except ApplyErr MolGraph → Bool
  | Except.error (ApplyErr.invalidAction _) => true
  | _ => false

/-- A shape restriction under which claim C9 reads: the action carries one
of the five known tags with the documented arity and parseable integer
arguments, or an unknown tag.  (With a malformed arity or an unparseable
number, Python raises `ValueError`/`IndexError` before or instead of
`InvalidActionError`.) -/
def applyActionShapeOK (action : List String) : Bool :=
  match action with
  | tag :: args =>
    if isBondActionTag tag then
      match args with
      | [_, info, _] => if tag == "CHANGE_BOND" then (pyInt? info).isSome else true
      | _ => false
    else if isRadicalActionTag tag then
      match args with
      | [_, c] => (pyInt? c).isSome
      | _ => false
    else
      true
  | [] => false

/-- The malformed-action conditions enumerated by claim C9: a bond action
with an unresolvable label or two labels naming the same atom; BREAK_BOND
forward or FORM_BOND reverse over a missing bond; a radical action with an
unresolvable label; an unknown action tag. -/
def invalidActionExpected (g : MolGraph) (doForward : Bool) (action : List String) : Bool :=
  match action with
  | tag :: args =>
    if isBondActionTag tag then
      match args with
      | [l1, _, l2] =>
        ((getLabeledAtom g l1).isNone || (getLabeledAtom g l2).isNone || l1 == l2)
          || (((tag == "BREAK_BOND" && doForward) || (tag == "FORM_BOND" && !doForward))
                && !(hasBond g l1 l2))
      | _ => false
    else if isRadicalActionTag tag then
      match args with
      | [l, _] => (getLabeledAtom g l).isNone
      | _ => false
    else
      true
  | [] => false

/-! # Lemmas and theorems -/

/-! ## The stable sort: the head of the result carries a minimal key -/

theorem keyLe_refl (a : Nat × Nat) : keyLe a a = true := by
  simp [keyLe, Nat.ble_eq]

theorem keyLe_total (a b : Nat × Nat) : keyLe a b = true ∨ keyLe b a = true := by
  simp only [keyLe, Bool.or_eq_true, Bool.and_eq_true, Nat.blt_eq, Nat.ble_eq, Nat.beq_eq]
  omega

theorem keyLe_trans {a b c : Nat × Nat} (hab : keyLe a b = true) (hbc : keyLe b c = true) :
    keyLe a c = true := by
  simp only [keyLe, Bool.or_eq_true, Bool.and_eq_true, Nat.blt_eq, Nat.ble_eq,
    Nat.beq_eq] at hab hbc ⊢
  omega

theorem sortByKey_head_min (key : α → Nat × Nat) (l : List α) (hne : l ≠ []) :
    ∃ e rest, sortByKey key l = e :: rest ∧ e ∈ l ∧
      ∀ a ∈ l, keyLe (key e) (key a) = true := by
  induction l with
  | nil => exact absurd rfl hne
  | cons x xs ih =>
    cases xs with
    | nil =>
      refine ⟨x, [], rfl, List.mem_singleton.mpr rfl, ?_⟩
      intro a ha
      rw [List.mem_singleton.mp ha]
      exact keyLe_refl _
    | cons y ys =>
      obtain ⟨e, rest, hs, hmem, hmin⟩ := ih (by simp)
      have hunf : sortByKey key (x :: y :: ys) = insertByKey key x (e :: rest) := by
        show insertByKey key x (sortByKey key (y :: ys)) = _
        rw [hs]
      by_cases hk : keyLe (key x) (key e) = true
      · refine ⟨x, e :: rest, ?_, List.mem_cons_self x _, ?_⟩
        · rw [hunf]; simp [insertByKey, hk]
        · intro a ha
          rcases List.mem_cons.mp ha with h | h
          · rw [h]; exact keyLe_refl _
          · exact keyLe_trans hk (hmin a h)
      · refine ⟨e, insertByKey key x rest, ?_, List.mem_cons_of_mem x hmem, ?_⟩
        · rw [hunf]; simp [insertByKey, hk]
        · intro a ha
          rcases List.mem_cons.mp ha with h | h
          · rw [h]
            rcases keyLe_total (key x) (key e) with h1 | h1
            · exact absurd h1 hk
            · exact h1
          · exact hmin a h

/-! ## C4: determinism of `getRateRule` over duplicate template labels -/

/-- C4: for every rule set in which several stored entries share the
requested template-label tuple, `getRateRule` succeeds and returns a
matched entry that prefers positive rank and carries the lexicographically
smallest `(rank, index)` key among the positive-rank matches -- or, when
every match has rank 0, the smallest index.  In particular it returns a
rank-3 entry over a rank-0 entry, and of two rank-3 entries at indices 5
and 2 the one at index 2. -/
theorem getRateRule_tiebreak (familyLabel : String) (rules : List RuleEntry)
    (template : List String)
    (hmulti : 2 ≤ (matchedRuleEntries familyLabel rules template).length) :
    ∃ e, getRateRule familyLabel rules template = Except.ok e ∧
      e ∈ matchedRuleEntries familyLabel rules template ∧
      ((∃ f ∈ matchedRuleEntries familyLabel rules template, 0 < f.rank) →
        0 < e.rank ∧ ∀ f ∈ matchedRuleEntries familyLabel rules template,
          0 < f.rank → keyLe (e.rank, e.index) (f.rank, f.index) = true) ∧
      ((∀ f ∈ matchedRuleEntries familyLabel rules template, f.rank = 0) →
        ∀ f ∈ matchedRuleEntries familyLabel rules template, e.index ≤ f.index) := by
  rcases hM : matchedRuleEntries familyLabel rules template with _ | ⟨a, _ | ⟨b, tl⟩⟩
  · rw [hM] at hmulti; simp at hmulti
  · rw [hM] at hmulti; simp at hmulti
  · have hgr : getRateRule familyLabel rules template =
        (if ((a :: b :: tl).any fun e => decide (0 < e.rank)) = true then
          match sortByKey (fun e => (e.rank, e.index))
              (List.filter (fun e => decide (0 < e.rank)) (a :: b :: tl)) with
          | e :: _ => Except.ok e
          | [] => Except.error "unreachable: filter of a list with a positive-rank entry"
        else
          match sortByKey (fun e => (e.index, 0)) (a :: b :: tl) with
          | e :: _ => Except.ok e
          | [] => Except.error "unreachable: sort of a non-empty list") := by
      unfold getRateRule
      rw [hM]
    by_cases hpos : ((a :: b :: tl).any fun e => decide (0 < e.rank)) = true
    · have hfne : List.filter (fun e => decide (0 < e.rank)) (a :: b :: tl) ≠ [] := by
        rcases List.any_eq_true.mp hpos with ⟨x, hx, hxr⟩
        intro hcontra
        have hxn : x ∈ List.filter (fun e => decide (0 < e.rank)) (a :: b :: tl) :=
          List.mem_filter.mpr ⟨hx, hxr⟩
        rw [hcontra] at hxn
        exact absurd hxn (List.not_mem_nil x)
      obtain ⟨e, rest, hs, hmem, hmin⟩ :=
        sortByKey_head_min (fun e => (e.rank, e.index)) _ hfne
      have hemem := List.mem_filter.mp hmem
      refine ⟨e, ?_, hemem.1, ?_, ?_⟩
      · rw [hgr, if_pos hpos, hs]
      · intro _
        refine ⟨by simpa using hemem.2, ?_⟩
        intro f hf hfr
        exact hmin f (List.mem_filter.mpr ⟨hf, by simpa using hfr⟩)
      · intro hall
        have h0 := hall e hemem.1
        have h2 : 0 < e.rank := by simpa using hemem.2
        omega
    · obtain ⟨e, rest, hs, hmem, hmin⟩ :=
        sortByKey_head_min (fun e => (e.index, 0)) (a :: b :: tl) (by simp)
      refine ⟨e, ?_, hmem, ?_, ?_⟩
      · rw [hgr, if_neg hpos, hs]
      · rintro ⟨f, hf, hfr⟩
        exact absurd (List.any_eq_true.mpr ⟨f, hf, by simpa using hfr⟩) hpos
      · intro _ f hf
        have hkey := hmin f hf
        simp only [keyLe, Bool.or_eq_true, Bool.and_eq_true, Nat.blt_eq, Nat.ble_eq,
          Nat.beq_eq] at hkey
        omega

/-- Witness for C4 at a concrete rule set: two entries share the label
`T1;T2`, one of rank 3 at index 5 and one of rank 0 at index 1. -/
theorem getRateRule_tiebreak_witness :
    2 ≤ (matchedRuleEntries "H_Abstraction"
        [⟨"T1;T2", 3, 5, 7⟩, ⟨"T1;T2", 0, 1, 8⟩] ["T1", "T2"]).length ∧
      ∃ e, getRateRule "H_Abstraction"
            [⟨"T1;T2", 3, 5, 7⟩, ⟨"T1;T2", 0, 1, 8⟩] ["T1", "T2"] = Except.ok e ∧
        e ∈ matchedRuleEntries "H_Abstraction"
            [⟨"T1;T2", 3, 5, 7⟩, ⟨"T1;T2", 0, 1, 8⟩] ["T1", "T2"] ∧
        ((∃ f ∈ matchedRuleEntries "H_Abstraction"
            [⟨"T1;T2", 3, 5, 7⟩, ⟨"T1;T2", 0, 1, 8⟩] ["T1", "T2"], 0 < f.rank) →
          0 < e.rank ∧ ∀ f ∈ matchedRuleEntries "H_Abstraction"
              [⟨"T1;T2", 3, 5, 7⟩, ⟨"T1;T2", 0, 1, 8⟩] ["T1", "T2"],
            0 < f.rank → keyLe (e.rank, e.index) (f.rank, f.index) = true) ∧
        ((∀ f ∈ matchedRuleEntries "H_Abstraction"
            [⟨"T1;T2", 3, 5, 7⟩, ⟨"T1;T2", 0, 1, 8⟩] ["T1", "T2"], f.rank = 0) →
          ∀ f ∈ matchedRuleEntries "H_Abstraction"
              [⟨"T1;T2", 3, 5, 7⟩, ⟨"T1;T2", 0, 1, 8⟩] ["T1", "T2"], e.index ≤ f.index) :=
  ⟨by decide, getRateRule_tiebreak "H_Abstraction"
    [⟨"T1;T2", 3, 5, 7⟩, ⟨"T1;T2", 0, 1, 8⟩] ["T1", "T2"] (by decide)⟩

/-! ## C2: unit validation of `__getAverageKinetics` -/

/-- C2 (code bug): the unit check of `__getAverageKinetics` never rejects
anything.  Because the `or` operands on family.py line 1780 are bare
non-empty string literals, the first branch is taken for every input, so
every unit string -- recognized or not -- is silently normalized to
`m^3/(mol*s)` and the `raise Exception('Invalid units ...')` branch is
unreachable, contradicting the spec's fail-fast requirement (and the
code's own dead `raise`). -/
theorem getAverageKineticsAunits_never_rejects (Aunits : String) :
    getAverageKineticsAunits Aunits = Except.ok "m^3/(mol*s)" := by
  have h : pyStrTruthy "cm^3/(molecule*s)" = true := by decide
  simp [getAverageKineticsAunits, h]

/-! ## C3: the stale `kinetics` return of `getKinetics` -/

/-- C3: with no depository hit, a falsy rate-rules estimate and a truthy
group-additivity estimate `some 42`, `getKinetics` (with
`returnAllKinetics=False` and no estimator) returns the stale `kinetics`
variable from the rate-rules branch -- here `none` -- instead of the just
computed `kinetics2 = some 42` (family.py line 1741). -/
theorem getKinetics_stale_rate_rules_variable :
    getKineticsFirstMatch [[], []] none (some 42) =
        Except.ok (none, KinSource.estimate) ∧
      (some 42 : Option Nat) ≠ none :=
  ⟨rfl, by decide⟩

/-! ## C5: evenness and halving of raw degeneracies -/

theorem halveDegeneracies_ok (degs : List Nat) (h : ∀ d ∈ degs, d % 2 = 0) :
    halveDegeneracies degs = Except.ok (degs.map (fun d => d / 2)) := by
  induction degs with
  | nil => rfl
  | cons d ds ih =>
    have hd : (d % 2 == 0) = true := by simp [h d (List.mem_cons_self _ _)]
    have hds := ih (fun x hx => h x (List.mem_cons_of_mem _ hx))
    simp [halveDegeneracies, hd, hds]

theorem halveDegeneracies_err (degs : List Nat) (h : ∃ d ∈ degs, d % 2 ≠ 0) :
    halveDegeneracies degs = Except.error "AssertionError: rxn.degeneracy % 2 == 0" := by
  induction degs with
  | nil => simp at h
  | cons d ds ih =>
    by_cases hd : d % 2 = 0
    · have hrest : ∃ x ∈ ds, x % 2 ≠ 0 := by
        rcases h with ⟨x, hx, hxo⟩
        rcases List.mem_cons.mp hx with rfl | hx2
        · exact absurd hd hxo
        · exact ⟨x, hx2, hxo⟩
      have hdb : (d % 2 == 0) = true := by simp [hd]
      simp [halveDegeneracies, hdb, ih hrest]
    · have hdb : (d % 2 == 0) = false := by simp [hd]
      simp [halveDegeneracies, hdb]

/-- C5: for a same-reactant pair, or for the `r_recombination` family, the
degeneracy correction of `__generateReactions` (family.py lines 1511-1519)
halves every even raw degeneracy exactly, and fails with the assertion
error -- never rounding -- as soon as any raw degeneracy is odd. -/
theorem generateReactions_same_reactants_halving (sameReactants : Bool)
    (familyLabel : String) (degs : List Nat)
    (hbranch : sameReactants = true ∨
      pyStartsWith (pyLower familyLabel) "r_recombination" = true) :
    ((∀ d ∈ degs, d % 2 = 0) →
        correctDegeneracies sameReactants familyLabel degs =
          Except.ok (degs.map (fun d => d / 2))) ∧
      ((∃ d ∈ degs, d % 2 ≠ 0) →
        correctDegeneracies sameReactants familyLabel degs =
          Except.error "AssertionError: rxn.degeneracy % 2 == 0") := by
  have hcond : (sameReactants || pyStartsWith (pyLower familyLabel) "r_recombination") = true := by
    rcases hbranch with h | h <;> simp [h]
  constructor
  · intro h
    simp [correctDegeneracies, hcond, halveDegeneracies_ok degs h]
  · intro h
    simp [correctDegeneracies, hcond, halveDegeneracies_err degs h]

/-- Witness for C5: a same-reactant pair with raw degeneracies 2 and 4 is
halved to 1 and 2; with raw degeneracies 2 and 3 the assertion fires. -/
theorem generateReactions_same_reactants_halving_witness :
    correctDegeneracies true "H_Abstraction" [2, 4] =
        Except.ok ([2, 4].map (fun d => d / 2)) ∧
      correctDegeneracies true "H_Abstraction" [2, 3] =
        Except.error "AssertionError: rxn.degeneracy % 2 == 0" :=
  ⟨(generateReactions_same_reactants_halving true "H_Abstraction" [2, 4]
      (Or.inl rfl)).1 (by decide),
    (generateReactions_same_reactants_halving true "H_Abstraction" [2, 3]
      (Or.inl rfl)).2 ⟨3, by decide, by decide⟩⟩

/-! ## C6: `calculateDegeneracy` demands exactly one constrained match -/

/-- C6: `calculateDegeneracy` re-runs generation constrained to the given
reactants and products (the oracle `generate`); with exactly one resulting
reaction it returns that reaction's degeneracy, and with zero or several
results it fails with the fatal error (family.py lines 1294-1302). -/
theorem calculateDegeneracy_requires_unique_match
    (generate : List Nat → List Nat → List GeneratedReaction)
    (reactants products : List Nat) :
    (∀ r, generate reactants products = [r] →
        calculateDegeneracy generate reactants products = Except.ok r.degeneracy) ∧
      ((generate reactants products).length ≠ 1 →
        calculateDegeneracy generate reactants products =
          Except.error "Unable to calculate degeneracy for reaction.") := by
  constructor
  · intro r hr
    simp [calculateDegeneracy, hr]
  · intro h
    simp [calculateDegeneracy, h]

/-- Witness for C6: a single constrained match of degeneracy 6 is returned;
an empty match list is a fatal error. -/
theorem calculateDegeneracy_requires_unique_match_witness :
    calculateDegeneracy (fun _ _ => [⟨[1], [2], 6⟩]) [1] [2] = Except.ok 6 ∧
      calculateDegeneracy (fun _ _ => []) [1] [2] =
        Except.error "Unable to calculate degeneracy for reaction." :=
  ⟨(calculateDegeneracy_requires_unique_match (fun _ _ => [⟨[1], [2], 6⟩]) [1] [2]).1
      ⟨[1], [2], 6⟩ rfl,
    (calculateDegeneracy_requires_unique_match (fun _ _ => []) [1] [2]).2 (by decide)⟩

/-! ## C10: `__createReaction` drops identity reactions -/

theorem createReaction_identity_check (iso : Nat → Nat → Bool)
    (reactants products : List Nat) (isForward : Bool) (rxn : GeneratedReaction)
    (h : createReaction iso reactants products isForward = some rxn) :
    identityCheck iso reactants products = false ∧
      rxn.reactants = (if isForward then reactants else products) ∧
      rxn.products = (if isForward then products else reactants) := by
  unfold createReaction at h
  split at h
  · exact absurd h (by simp)
  · rename_i hid
    have hrxn := Option.some_inj.mp h
    refine ⟨by simpa using hid, ?_, ?_⟩ <;> rw [← hrxn]

/-- C10: a reaction surviving `__createReaction` (and hence any reaction
in the generator's output, which consists of such survivors) is never an
identity reaction: with one reactant and one product they are not
isomorphic, and with two of each neither the direct nor the swapped
pairing is isomorphic (family.py lines 1208-1216). -/
theorem generateReactions_no_identity (iso : Nat → Nat → Bool)
    (hsymm : ∀ a b, iso a b = iso b a) (isForward : Bool)
    (candidates : List (List Nat × List Nat)) (rxn : GeneratedReaction)
    (hmem : rxn ∈ candidates.filterMap (fun c => createReaction iso c.1 c.2 isForward)) :
    (∀ r p, rxn.reactants = [r] → rxn.products = [p] → iso r p = false) ∧
      (∀ r0 r1 p0 p1, rxn.reactants = [r0, r1] → rxn.products = [p0, p1] →
        (iso r0 p0 && iso r1 p1) = false ∧ (iso r0 p1 && iso r1 p0) = false) := by
  rcases List.mem_filterMap.mp hmem with ⟨c, hc, hsome⟩
  obtain ⟨hfalse, hre, hpr⟩ := createReaction_identity_check iso c.1 c.2 isForward rxn hsome
  cases isForward with
  | true =>
    simp at hre hpr
    constructor
    · intro r p hr hp
      have h1 : c.1 = [r] := hre.symm.trans hr
      have h2 : c.2 = [p] := hpr.symm.trans hp
      rw [h1, h2] at hfalse
      simpa [identityCheck] using hfalse
    · intro r0 r1 p0 p1 hr hp
      have h1 : c.1 = [r0, r1] := hre.symm.trans hr
      have h2 : c.2 = [p0, p1] := hpr.symm.trans hp
      rw [h1, h2] at hfalse
      simp only [identityCheck, Bool.or_eq_false_iff] at hfalse
      exact hfalse
  | false =>
    simp at hre hpr
    constructor
    · intro r p hr hp
      have h2 : c.2 = [r] := hre.symm.trans hr
      have h1 : c.1 = [p] := hpr.symm.trans hp
      rw [h1, h2] at hfalse
      rw [hsymm r p]
      simpa [identityCheck] using hfalse
    · intro r0 r1 p0 p1 hr hp
      have h2 : c.2 = [r0, r1] := hre.symm.trans hr
      have h1 : c.1 = [p0, p1] := hpr.symm.trans hp
      rw [h1, h2] at hfalse
      simp only [identityCheck, Bool.or_eq_false_iff] at hfalse
      constructor
      · rw [hsymm r0 p0, hsymm r1 p1]
        exact hfalse.1
      · rw [hsymm r0 p1, hsymm r1 p0, Bool.and_comm]
        exact hfalse.2

/-- Witness for C10 at a concrete candidate list with the everywhere-false
isomorphism oracle. -/
theorem generateReactions_no_identity_witness :
    (∀ r p, (GeneratedReaction.mk [1] [2] 1).reactants = [r] →
        (GeneratedReaction.mk [1] [2] 1).products = [p] →
        (fun _ _ : Nat => false) r p = false) ∧
      (∀ r0 r1 p0 p1, (GeneratedReaction.mk [1] [2] 1).reactants = [r0, r1] →
        (GeneratedReaction.mk [1] [2] 1).products = [p0, p1] →
        ((fun _ _ : Nat => false) r0 p0 && (fun _ _ : Nat => false) r1 p1) = false ∧
          ((fun _ _ : Nat => false) r0 p1 && (fun _ _ : Nat => false) r1 p0) = false) :=
  generateReactions_no_identity (fun _ _ => false) (fun _ _ => rfl) true
    [([1], [2])] (GeneratedReaction.mk [1] [2] 1) (by decide)

/-! ## C1: the widening direction of `estimateKineticsUsingRateRules` -/

theorem mem_appendDedup (x t : List String) (acc : List (List String)) :
    x ∈ (if t ∈ acc then acc else acc ++ [t]) ↔ x ∈ acc ∨ x = t := by
  split
  · rename_i h
    constructor
    · exact Or.inl
    · rintro (hx | rfl)
      · exact hx
      · exact h
  · simp

theorem mem_widenSlotFold (parent : String → Option String) (template0 : List String)
    (idxs : List Nat) (acc : List (List String)) (x : List String) :
    x ∈ idxs.foldl (widenSlotStep parent template0) acc ↔
      x ∈ acc ∨ ∃ i ∈ idxs, ∃ p, parent (template0.getD i "") = some p ∧
        x = template0.set i p := by
  induction idxs generalizing acc with
  | nil => simp
  | cons i idxs ih =>
    rw [List.foldl_cons, ih]
    cases hp : parent (template0.getD i "") with
    | none =>
      simp only [widenSlotStep, hp, List.exists_mem_cons_iff]
      constructor
      · rintro (hx | hrest)
        · exact Or.inl hx
        · exact Or.inr (Or.inr hrest)
      · rintro (hx | ⟨p, hps, _⟩ | hrest)
        · exact Or.inl hx
        · exact absurd hps (by simp)
        · exact Or.inr hrest
    | some p =>
      simp only [widenSlotStep, hp, List.exists_mem_cons_iff]
      rw [mem_appendDedup]
      constructor
      · rintro ((hx | rfl) | hrest)
        · exact Or.inl hx
        · exact Or.inr (Or.inl ⟨p, rfl, rfl⟩)
        · exact Or.inr (Or.inr hrest)
      · rintro (hx | ⟨q, hq, rfl⟩ | hrest)
        · exact Or.inl (Or.inl hx)
        · obtain rfl := Option.some_inj.mp hq
          exact Or.inl (Or.inr rfl)
        · exact Or.inr hrest

theorem mem_widenTemplateFold (parent : String → Option String)
    (L : List (List String)) (acc : List (List String)) (x : List String) :
    x ∈ L.foldl (widenTemplateStep parent) acc ↔
      x ∈ acc ∨ ∃ t0 ∈ L, ParentStep parent t0 x := by
  induction L generalizing acc with
  | nil => simp
  | cons t0 L ih =>
    rw [List.foldl_cons, ih]
    unfold widenTemplateStep
    rw [mem_widenSlotFold]
    simp only [List.exists_mem_cons_iff, ParentStep, List.mem_range]
    constructor
    · rintro ((hx | ⟨i, hi, hstep⟩) | hrest)
      · exact Or.inl hx
      · exact Or.inr (Or.inl ⟨i, hi, hstep⟩)
      · exact Or.inr (Or.inr hrest)
    · rintro (hx | ⟨i, hi, hstep⟩ | hrest)
      · exact Or.inl (Or.inl hx)
      · exact Or.inl (Or.inr ⟨i, hi, hstep⟩)
      · exact Or.inr hrest

/-- C1 (amended): when no rule is found at the current probe level, the
next level built by `estimateKineticsUsingRateRules` (family.py lines
1841-1853) consists exactly of the templates obtained from a current
template by replacing one slot that has a parent with that parent
(deduplicated); in particular the widening moves toward parents -- the
tree root -- and a level is empty, ending the search, exactly when no
slot of any current template has a parent. -/
theorem widenTemplateList_mem (parent : String → Option String)
    (L : List (List String)) :
    (∀ t, t ∈ widenTemplateList parent L ↔ ∃ t0 ∈ L, ParentStep parent t0 t) ∧
      (widenTemplateList parent L = [] ↔
        ∀ t0 ∈ L, ∀ i, i < t0.length → parent (t0.getD i "") = none) := by
  have hmem : ∀ t, t ∈ widenTemplateList parent L ↔ ∃ t0 ∈ L, ParentStep parent t0 t := by
    intro t
    unfold widenTemplateList
    rw [mem_widenTemplateFold]
    simp
  refine ⟨hmem, ?_⟩
  rw [List.eq_nil_iff_forall_not_mem]
  constructor
  · intro h t0 ht0 i hi
    cases hp : parent (t0.getD i "") with
    | none => rfl
    | some p =>
      exact absurd ((hmem (t0.set i p)).mpr ⟨t0, ht0, i, hi, p, hp, rfl⟩)
        (h (t0.set i p))
  · intro h t ht
    rcases (hmem t).mp ht with ⟨t0, ht0, i, hi, p, hp, _⟩
    rw [h t0 ht0 i hi] at hp
    exact Option.noConfusion hp

/-- C1 counterexample: with the two-slot template `(A, B)` where `A` has
parent `R` and `B` has parent `S` (so `A` and `B` are leaves with no
children), the code's next probe level is `[(R, B), (A, S)]` -- each tuple
replaces one slot by its PARENT -- while the spec's described
children-expansion cartesian product minus the tried tuple is empty. -/
theorem estimateKinetics_widening_counterexample :
    widenTemplateList (lookupParent [("A", "R"), ("B", "S")]) [["A", "B"]] =
        [["R", "B"], ["A", "S"]] ∧
      specChildrenWiden
          (fun l => if l == "R" then ["A"] else if l == "S" then ["B"] else [])
          [["A", "B"]] ["A", "B"] = [] ∧
      lookupParent [("A", "R"), ("B", "S")] "A" = some "R" :=
  ⟨by decide, by decide, by decide⟩

/-! ## C8: `getReverse` and the decimal round trip -/

theorem digitsToNat_append (l1 l2 : List Char) (acc : Nat) :
    digitsToNat acc (l1 ++ l2) = digitsToNat (digitsToNat acc l1) l2 := by
  induction l1 generalizing acc with
  | nil => rfl
  | cons c cs ih => exact ih (acc * 10 + (c.toNat - 48))

theorem digitChar_facts (k : Nat) (hk : k < 10) :
    isDigitChar (Char.ofNat (k + 48)) = true ∧ (Char.ofNat (k + 48)).toNat = k + 48 := by
  interval_cases k <;> exact ⟨by decide, by decide⟩

theorem digitChar_not_sign (c : Char) (h : isDigitChar c = true) :
    ¬(c = '+') ∧ ¬(c = '-') := by
  constructor <;> rintro rfl <;> exact absurd h (by decide)

theorem natToRevDigitsAux_spec (fuel : Nat) : ∀ n, n < fuel →
    natToRevDigitsAux fuel n ≠ [] ∧
      (natToRevDigitsAux fuel n).all isDigitChar = true ∧
      ∀ acc, digitsToNat acc (natToRevDigitsAux fuel n).reverse =
        acc * 10 ^ (natToRevDigitsAux fuel n).length + n := by
  induction fuel with
  | zero => omega
  | succ fuel ih =>
    intro n hn
    by_cases h10 : n < 10
    · have hrw : natToRevDigitsAux (fuel + 1) n = [Char.ofNat (n % 10 + 48)] := by
        simp [natToRevDigitsAux, h10]
      obtain ⟨hd, ht⟩ := digitChar_facts (n % 10) (Nat.mod_lt _ (by omega))
      rw [hrw]
      refine ⟨by simp, by simp [hd], ?_⟩
      intro acc
      have hmod : n % 10 = n := Nat.mod_eq_of_lt h10
      have hred : digitsToNat acc ([Char.ofNat (n % 10 + 48)].reverse) =
          acc * 10 + ((Char.ofNat (n % 10 + 48)).toNat - 48) := rfl
      rw [hred, ht, List.length_singleton, pow_one]
      omega
    · have hrw : natToRevDigitsAux (fuel + 1) n =
          Char.ofNat (n % 10 + 48) :: natToRevDigitsAux fuel (n / 10) := by
        simp [natToRevDigitsAux, h10]
      have hlt : n / 10 < fuel := by
        have h1 : n / 10 < n := Nat.div_lt_self (by omega) (by omega)
        omega
      obtain ⟨hne, hall, hval⟩ := ih (n / 10) hlt
      obtain ⟨hd, ht⟩ := digitChar_facts (n % 10) (Nat.mod_lt _ (by omega))
      rw [hrw]
      refine ⟨by simp, by simp [hd, hall], ?_⟩
      intro acc
      rw [List.reverse_cons, digitsToNat_append, hval acc]
      have hstep : ∀ m, digitsToNat m [Char.ofNat (n % 10 + 48)] = m * 10 + n % 10 := by
        intro m
        have hred : digitsToNat m [Char.ofNat (n % 10 + 48)] =
            m * 10 + ((Char.ofNat (n % 10 + 48)).toNat - 48) := rfl
        rw [hred, ht]
        omega
      rw [hstep, List.length_cons, pow_succ]
      have hdm : n / 10 * 10 + n % 10 = n := by
        have := Nat.div_add_mod n 10
        omega
      calc (acc * 10 ^ (natToRevDigitsAux fuel (n / 10)).length + n / 10) * 10 + n % 10
          = acc * (10 ^ (natToRevDigitsAux fuel (n / 10)).length * 10) +
              (n / 10 * 10 + n % 10) := by ring
        _ = _ := by rw [hdm]

theorem parseNatDigits_natToRevDigits (n : Nat) :
    parseNatDigits? ((natToRevDigitsAux (n + 1) n).reverse) = some n := by
  obtain ⟨hne, hall, hval⟩ := natToRevDigitsAux_spec (n + 1) n (by omega)
  have hne2 : ((natToRevDigitsAux (n + 1) n).reverse.isEmpty) = false := by
    cases h : (natToRevDigitsAux (n + 1) n).reverse with
    | nil => exact absurd (List.reverse_eq_nil_iff.mp h) hne
    | cons c cs => rfl
  have hall2 : ((natToRevDigitsAux (n + 1) n).reverse.all isDigitChar) = true := by
    rw [List.all_eq_true] at hall ⊢
    intro c hc
    exact hall c (List.mem_reverse.mp hc)
  rw [parseNatDigits?, if_pos (by simp [hne2, hall2]), hval 0]
  norm_num

theorem pyInt_pyStrOfNat (n : Nat) : pyInt? (pyStrOfNat n) = some (Int.ofNat n) := by
  obtain ⟨hne, hall, _⟩ := natToRevDigitsAux_spec (n + 1) n (by omega)
  obtain ⟨c, cs, hcs⟩ := List.exists_cons_of_ne_nil
    (show (natToRevDigitsAux (n + 1) n).reverse ≠ [] by simpa using hne)
  have hcd : isDigitChar c = true := by
    rw [List.all_eq_true] at hall
    exact hall c (List.mem_reverse.mp (hcs ▸ List.mem_cons_self c cs))
  obtain ⟨hplus, hminus⟩ := digitChar_not_sign c hcd
  have hdata : (pyStrOfNat n).data = c :: cs := hcs
  rw [pyInt?, hdata]
  show pyIntSigned c cs = some (Int.ofNat n)
  rw [pyIntSigned, if_neg hplus, if_neg hminus, ← hcs, parseNatDigits_natToRevDigits n]
  rfl

theorem pyInt_pyStrOfInt (i : Int) : pyInt? (pyStrOfInt i) = some i := by
  by_cases hneg : i < 0
  · have hdata : (pyStrOfInt i).data = '-' :: (pyStrOfNat i.natAbs).data := by
      rw [pyStrOfInt, if_pos hneg]
      rfl
    have hrest : parseNatDigits? ((pyStrOfNat i.natAbs).data) = some i.natAbs :=
      parseNatDigits_natToRevDigits i.natAbs
    rw [pyInt?, hdata]
    show pyIntSigned '-' ((pyStrOfNat i.natAbs).data) = some i
    rw [pyIntSigned, if_neg (by decide), if_pos rfl, hrest]
    have habs : -(Int.ofNat i.natAbs) = i := by
      simp only [Int.ofNat_eq_natCast]
      omega
    show some (-(Int.ofNat i.natAbs)) = some i
    rw [habs]
  · have heq : pyStrOfInt i = pyStrOfNat i.natAbs := by
      rw [pyStrOfInt, if_neg hneg]
    have habs : Int.ofNat i.natAbs = i := by
      simp only [Int.ofNat_eq_natCast]
      omega
    rw [heq, pyInt_pyStrOfNat, habs]

/-- C8 (amended): on every recipe whose actions carry the five known tags
with their documented arities and whose CHANGE_BOND deltas are canonical
decimal integer strings (as `str(int)` writes them), `getReverse` succeeds
and is an involution action-for-action. -/
theorem getReverse_involutive (actions : List (List String))
    (hwf : actions.all actionWellFormed = true) :
    ∃ rev, getReverse actions = Except.ok rev ∧ getReverse rev = Except.ok actions := by
  induction actions with
  | nil => exact ⟨[], rfl, rfl⟩
  | cons a rest ih =>
    rw [List.all_cons, Bool.and_eq_true] at hwf
    obtain ⟨rev, hrev1, hrev2⟩ := ih hwf.2
    have ha := hwf.1
    unfold actionWellFormed at ha
    split at ha
    · rename_i l1 d l2
      rcases hk : pyInt? d with _ | k
      · rw [hk] at ha; exact absurd ha (by simp)
      · rw [hk] at ha
        have hcanon : pyStrOfInt k = d := by simpa using ha
        have h1 : getReverseAction ["CHANGE_BOND", l1, d, l2] =
            Except.ok (some ["CHANGE_BOND", l1, pyStrOfInt (-k), l2]) := by
          simp [getReverseAction, hk]
        have h2 : getReverseAction ["CHANGE_BOND", l1, pyStrOfInt (-k), l2] =
            Except.ok (some ["CHANGE_BOND", l1, d, l2]) := by
          simp [getReverseAction, pyInt_pyStrOfInt, neg_neg, hcanon]
        exact ⟨["CHANGE_BOND", l1, pyStrOfInt (-k), l2] :: rev,
          by simp [getReverse, h1, hrev1],
          by simp [getReverse, h2, hrev2]⟩
    · rename_i l1 o l2
      exact ⟨["BREAK_BOND", l1, o, l2] :: rev,
        by simp [getReverse, getReverseAction, hrev1],
        by simp [getReverse, getReverseAction, hrev2]⟩
    · rename_i l1 o l2
      exact ⟨["FORM_BOND", l1, o, l2] :: rev,
        by simp [getReverse, getReverseAction, hrev1],
        by simp [getReverse, getReverseAction, hrev2]⟩
    · rename_i l c
      exact ⟨["LOSE_RADICAL", l, c] :: rev,
        by simp [getReverse, getReverseAction, hrev1],
        by simp [getReverse, getReverseAction, hrev2]⟩
    · rename_i l c
      exact ⟨["GAIN_RADICAL", l, c] :: rev,
        by simp [getReverse, getReverseAction, hrev1],
        by simp [getReverse, getReverseAction, hrev2]⟩
    · exact absurd ha (by simp)

/-- Witness for C8 on a concrete three-action recipe. -/
theorem getReverse_involutive_witness :
    ([["CHANGE_BOND", "*1", "-1", "*2"], ["FORM_BOND", "*3", "1", "*4"],
        ["GAIN_RADICAL", "*1", "1"]].all actionWellFormed) = true ∧
      ∃ rev, getReverse [["CHANGE_BOND", "*1", "-1", "*2"], ["FORM_BOND", "*3", "1", "*4"],
          ["GAIN_RADICAL", "*1", "1"]] = Except.ok rev ∧
        getReverse rev = Except.ok [["CHANGE_BOND", "*1", "-1", "*2"],
          ["FORM_BOND", "*3", "1", "*4"], ["GAIN_RADICAL", "*1", "1"]] :=
  ⟨by decide, getReverse_involutive _ (by decide)⟩

/-- C8 counterexample: the delta string `+1` is parsed to `1`, negated to
`-1`, and negated back to the canonical `1`, so the double reverse of a
recipe carrying delta `+1` differs action-for-action from the recipe. -/
theorem getReverse_plus_delta_counterexample :
    getReverse [["CHANGE_BOND", "*1", "+1", "*2"]] =
        Except.ok [["CHANGE_BOND", "*1", "-1", "*2"]] ∧
      getReverse [["CHANGE_BOND", "*1", "-1", "*2"]] =
        Except.ok [["CHANGE_BOND", "*1", "1", "*2"]] ∧
      [["CHANGE_BOND", "*1", "1", "*2"]] ≠ [["CHANGE_BOND", "*1", "+1", "*2"]] :=
  ⟨rfl, rfl, by decide⟩

/-! ## C9: `InvalidActionError` is raised exactly at the malformed cases -/

/-- C9: over actions of the documented shape (known tag with its arity and
parseable numbers, or an unknown tag), one step of `ReactionRecipe.__apply`
fails with `InvalidActionError` exactly when: a bond action has an
unresolvable label or its two labels name the same atom; BREAK_BOND
applied forward, or FORM_BOND applied in reverse, finds no existing bond;
a radical action has an unresolvable label; or the tag is unknown.  Other
failures (e.g. CHANGE_BOND over a missing bond) surface as external
exceptions, not `InvalidActionError`. -/
theorem applyAction_invalidAction_exactly (g : MolGraph) (doForward : Bool)
    (action : List String) (hshape : applyActionShapeOK action = true) :
    isInvalidActionResult (applyAction g doForward action) =
      invalidActionExpected g doForward action := by
  cases action with
  | nil => exact absurd hshape (by simp [applyActionShapeOK])
  | cons tag args =>
    by_cases hb : isBondActionTag tag = true
    · have htags : (tag = "CHANGE_BOND" ∨ tag = "FORM_BOND") ∨ tag = "BREAK_BOND" := by
        simpa [isBondActionTag] using hb
      rcases args with _ | ⟨l1, args⟩
      · exact absurd hshape (by simp [applyActionShapeOK, hb])
      rcases args with _ | ⟨info, args⟩
      · exact absurd hshape (by simp [applyActionShapeOK, hb])
      rcases args with _ | ⟨l2, args⟩
      · exact absurd hshape (by simp [applyActionShapeOK, hb])
      rcases args with _ | ⟨x4, args⟩
      · rcases htags with (rfl | rfl) | rfl
        · have hsome : (pyInt? info).isSome = true := by
            simpa [applyActionShapeOK] using hshape
          rcases hpi : pyInt? info with _ | delta
          · rw [hpi] at hsome
            exact absurd hsome (by simp)
          · by_cases hlab : ((getLabeledAtom g l1).isNone || (getLabeledAtom g l2).isNone
                || (l1 == l2)) = true
            · simp [applyAction, invalidActionExpected, isInvalidActionResult, isBondActionTag, isRadicalActionTag, hlab]
            · rcases hgb : g.bonds l1 l2 with _ | o <;>
                simp [applyAction, invalidActionExpected, isInvalidActionResult, isBondActionTag,
                  isRadicalActionTag, getBond, hasBond, hlab, hpi, hgb]
        · cases doForward <;>
            (by_cases hlab : ((getLabeledAtom g l1).isNone || (getLabeledAtom g l2).isNone
                || (l1 == l2)) = true
             · simp [applyAction, invalidActionExpected, isInvalidActionResult, isBondActionTag, isRadicalActionTag, hlab]
             · rcases hgb : g.bonds l1 l2 with _ | o <;>
                 simp [applyAction, invalidActionExpected, isInvalidActionResult, isBondActionTag,
                   isRadicalActionTag, getBond, hasBond, hlab, hgb])
        · cases doForward <;>
            (by_cases hlab : ((getLabeledAtom g l1).isNone || (getLabeledAtom g l2).isNone
                || (l1 == l2)) = true
             · simp [applyAction, invalidActionExpected, isInvalidActionResult, isBondActionTag, isRadicalActionTag, hlab]
             · rcases hgb : g.bonds l1 l2 with _ | o <;>
                 simp [applyAction, invalidActionExpected, isInvalidActionResult, isBondActionTag,
                   isRadicalActionTag, getBond, hasBond, hlab, hgb])
      · exact absurd hshape (by simp [applyActionShapeOK, hb])
    · have hbf : isBondActionTag tag = false := by simpa using hb
      by_cases hr : isRadicalActionTag tag = true
      · have htags : tag = "LOSE_RADICAL" ∨ tag = "GAIN_RADICAL" := by
          simpa [isRadicalActionTag] using hr
        rcases args with _ | ⟨l, args⟩
        · exact absurd hshape (by simp [applyActionShapeOK, hbf, hr])
        rcases args with _ | ⟨c, args⟩
        · exact absurd hshape (by simp [applyActionShapeOK, hbf, hr])
        rcases args with _ | ⟨x3, args⟩
        · rcases htags with rfl | rfl
          · have hsome : (pyInt? c).isSome = true := by
              simpa [applyActionShapeOK, isBondActionTag, isRadicalActionTag] using hshape
            rcases hpi : pyInt? c with _ | k
            · rw [hpi] at hsome
              exact absurd hsome (by simp)
            · cases doForward <;> rcases hatom : getLabeledAtom g l with _ | v <;>
                simp [applyAction, invalidActionExpected, isInvalidActionResult, isBondActionTag, isRadicalActionTag, hpi, hatom]
          · have hsome : (pyInt? c).isSome = true := by
              simpa [applyActionShapeOK, isBondActionTag, isRadicalActionTag] using hshape
            rcases hpi : pyInt? c with _ | k
            · rw [hpi] at hsome
              exact absurd hsome (by simp)
            · cases doForward <;> rcases hatom : getLabeledAtom g l with _ | v <;>
                simp [applyAction, invalidActionExpected, isInvalidActionResult, isBondActionTag, isRadicalActionTag, hpi, hatom]
        · exact absurd hshape (by simp [applyActionShapeOK, hbf, hr])
      · have hrf : isRadicalActionTag tag = false := by simpa using hr
        simp [applyAction, invalidActionExpected, isInvalidActionResult, hbf, hrf]

/-- Witness for C9 at a concrete graph and action: BREAK_BOND applied
forward between two present atoms with no bond. -/
theorem applyAction_invalidAction_exactly_witness :
    applyActionShapeOK ["BREAK_BOND", "*1", "S", "*2"] = true ∧
      isInvalidActionResult (applyAction (MolGraph.ofLists [("*1", 0), ("*2", 0)] [])
          true ["BREAK_BOND", "*1", "S", "*2"]) =
        invalidActionExpected (MolGraph.ofLists [("*1", 0), ("*2", 0)] [])
          true ["BREAK_BOND", "*1", "S", "*2"] :=
  ⟨by decide, applyAction_invalidAction_exactly _ true _ (by decide)⟩

/-! ## C7: the recipe round trip

The development below analyses `applyActions` through the pure effect
functions `fwdEffectV`/`revEffectV`: pointwise lemmas about the three
bond operations and the radical update, preservation of symmetry and of
label presence, frame lemmas for untouched pairs, congruence and
commutation up to `MolGraph.equiv`, and cancellation of one action's
forward and reverse effects. -/

theorem equiv_refl (g : MolGraph) : MolGraph.equiv g g :=
  ⟨fun _ => rfl, fun _ _ => rfl⟩

theorem equiv_symm {g h : MolGraph} (e : MolGraph.equiv g h) : MolGraph.equiv h g :=
  ⟨fun l => (e.1 l).symm, fun x y => (e.2 x y).symm⟩

theorem equiv_trans {g h k : MolGraph} (e1 : MolGraph.equiv g h)
    (e2 : MolGraph.equiv h k) : MolGraph.equiv g k :=
  ⟨fun l => (e1.1 l).trans (e2.1 l), fun x y => (e1.2 x y).trans (e2.2 x y)⟩

theorem onPair_iff (a b x y : String) :
    onPair a b x y = true ↔ (x = a ∧ y = b) ∨ (x = b ∧ y = a) := by
  simp [onPair]

theorem onPair_self (a b : String) : onPair a b a b = true := by
  simp [onPair]

theorem onPair_symm (a b x y : String) : onPair a b x y = onPair a b y x := by
  by_cases h : onPair a b x y = true
  · rw [h]
    symm
    rw [onPair_iff] at h ⊢
    tauto
  · have hf : onPair a b x y = false := by simpa using h
    rw [hf]
    symm
    rw [onPair_iff] at h
    cases hyx : onPair a b y x
    · rfl
    · rw [onPair_iff] at hyx
      exact absurd (by tauto) h

theorem upPairEq_iff (p q : String × String) :
    upPairEq p q = true ↔ (p.1 = q.1 ∧ p.2 = q.2) ∨ (p.1 = q.2 ∧ p.2 = q.1) := by
  simp [upPairEq]

theorem upPairEq_symm (p q : String × String) : upPairEq p q = upPairEq q p := by
  by_cases h : upPairEq p q = true
  · rw [h]
    symm
    rw [upPairEq_iff] at h ⊢
    rcases h with ⟨h1, h2⟩ | ⟨h1, h2⟩
    · exact Or.inl ⟨h1.symm, h2.symm⟩
    · exact Or.inr ⟨h2.symm, h1.symm⟩
  · have hf : upPairEq p q = false := by simpa using h
    rw [hf]
    symm
    rw [upPairEq_iff] at h
    cases hqp : upPairEq q p
    · rfl
    · rw [upPairEq_iff] at hqp
      refine absurd ?_ h
      rcases hqp with ⟨h1, h2⟩ | ⟨h1, h2⟩
      · exact Or.inl ⟨h1.symm, h2.symm⟩
      · exact Or.inr ⟨h2.symm, h1.symm⟩

theorem offPair_of_disjoint {p q : String × String} (hpq : upPairEq p q = false)
    {x y : String} (hq : onPair q.1 q.2 x y = true) : onPair p.1 p.2 x y = false := by
  cases hp : onPair p.1 p.2 x y
  · rfl
  · exfalso
    rw [onPair_iff] at hp hq
    have htrue : upPairEq p q = true := by
      rw [upPairEq_iff]
      rcases hq with ⟨rfl, rfl⟩ | ⟨rfl, rfl⟩ <;> rcases hp with ⟨h1, h2⟩ | ⟨h1, h2⟩
      · exact Or.inl ⟨h1.symm, h2.symm⟩
      · exact Or.inr ⟨h2.symm, h1.symm⟩
      · exact Or.inr ⟨h1.symm, h2.symm⟩
      · exact Or.inl ⟨h2.symm, h1.symm⟩
    rw [htrue] at hpq
    exact Bool.noConfusion hpq

theorem bondMap_radicals (a b : String) (f : Option Int → Option Int) (g : MolGraph) :
    (bondMap a b f g).radicals = g.radicals := rfl

theorem bondMap_bonds (a b : String) (f : Option Int → Option Int) (g : MolGraph)
    (x y : String) :
    (bondMap a b f g).bonds x y = if onPair a b x y then f (g.bonds x y) else g.bonds x y := rfl

theorem setRadical_radicals (g : MolGraph) (l : String) (delta : Int) (x : String) :
    (setRadical g l delta).radicals x =
      if x == l then (g.radicals x).map (fun v => v + delta) else g.radicals x := rfl

theorem setRadical_bonds (g : MolGraph) (l : String) (delta : Int) :
    (setRadical g l delta).bonds = g.bonds := rfl

theorem isSome_radicals_setRadical (g : MolGraph) (l : String) (delta : Int) (x : String) :
    ((setRadical g l delta).radicals x).isSome = (g.radicals x).isSome := by
  rw [setRadical_radicals]
  by_cases h : x == l
  · rw [if_pos h]
    cases g.radicals x <;> rfl
  · rw [if_neg h]

theorem isSome_radicals_fwdEffectV (v : ActionView) (g : MolGraph) (x : String) :
    ((fwdEffectV v g).radicals x).isSome = (g.radicals x).isSome := by
  cases v with
  | changeBond l1 delta l2 => rfl
  | formBond l1 l2 => rfl
  | breakBond l1 l2 => rfl
  | gainRadical l k => exact isSome_radicals_setRadical g l k x
  | loseRadical l k => exact isSome_radicals_setRadical g l (-k) x
  | other => rfl

theorem isSome_radicals_revEffectV (v : ActionView) (g : MolGraph) (x : String) :
    ((revEffectV v g).radicals x).isSome = (g.radicals x).isSome := by
  cases v with
  | changeBond l1 delta l2 => rfl
  | formBond l1 l2 => rfl
  | breakBond l1 l2 => rfl
  | gainRadical l k => exact isSome_radicals_setRadical g l (-k) x
  | loseRadical l k => exact isSome_radicals_setRadical g l k x
  | other => rfl

theorem isSome_radicals_fwdAll (actions : List (List String)) :
    ∀ (g : MolGraph) (x : String),
      ((fwdAll actions g).radicals x).isSome = (g.radicals x).isSome := by
  induction actions with
  | nil => intro g x; rfl
  | cons a rest ih =>
    intro g x
    calc ((fwdAll rest (fwdEffect a g)).radicals x).isSome
        = ((fwdEffect a g).radicals x).isSome := ih (fwdEffect a g) x
      _ = (g.radicals x).isSome := isSome_radicals_fwdEffectV (viewAction a) g x

theorem symm_bondMap {g : MolGraph} (h : MolGraph.Symm g) (a b : String)
    (f : Option Int → Option Int) : MolGraph.Symm (bondMap a b f g) := by
  intro x y
  rw [bondMap_bonds, bondMap_bonds, ← onPair_symm, ← h x y]

theorem symm_setRadical {g : MolGraph} (h : MolGraph.Symm g) (l : String) (delta : Int) :
    MolGraph.Symm (setRadical g l delta) :=
  fun x y => h x y

theorem symm_fwdEffectV {g : MolGraph} (h : MolGraph.Symm g) (v : ActionView) :
    MolGraph.Symm (fwdEffectV v g) := by
  cases v with
  | changeBond l1 delta l2 =>
    exact symm_bondMap h l1 l2 (fun o => o.map (fun v => v + delta))
  | formBond l1 l2 => exact symm_bondMap h l1 l2 (fun _ => some 1)
  | breakBond l1 l2 => exact symm_bondMap h l1 l2 (fun _ => none)
  | gainRadical l k => exact symm_setRadical h l k
  | loseRadical l k => exact symm_setRadical h l (-k)
  | other => exact h

theorem symm_revEffectV {g : MolGraph} (h : MolGraph.Symm g) (v : ActionView) :
    MolGraph.Symm (revEffectV v g) := by
  cases v with
  | changeBond l1 delta l2 =>
    exact symm_bondMap h l1 l2 (fun o => o.map (fun v => v + -delta))
  | formBond l1 l2 => exact symm_bondMap h l1 l2 (fun _ => none)
  | breakBond l1 l2 => exact symm_bondMap h l1 l2 (fun _ => some 1)
  | gainRadical l k => exact symm_setRadical h l (-k)
  | loseRadical l k => exact symm_setRadical h l k
  | other => exact h

theorem symm_fwdAll (actions : List (List String)) :
    ∀ {g : MolGraph}, MolGraph.Symm g → MolGraph.Symm (fwdAll actions g) := by
  induction actions with
  | nil => intro g h; exact h
  | cons a rest ih =>
    intro g h
    exact ih (symm_fwdEffectV h (viewAction a))

theorem viewBondPair_sub (a : List String) (p : String × String)
    (h : viewBondPair (viewAction a) = some p) : bondActionPairOf? a = some p := by
  unfold viewAction at h
  split at h
  · rename_i l1 d l2
    rcases hd : pyInt? d with _ | k <;> rw [hd] at h
    · exact absurd h (by simp [viewBondPair])
    · simp only [viewBondPair] at h
      rw [← Option.some_inj.mp h]
      simp [bondActionPairOf?, isBondActionTag]
  · rename_i l1 o l2
    simp only [viewBondPair] at h
    rw [← Option.some_inj.mp h]
    simp [bondActionPairOf?, isBondActionTag]
  · rename_i l1 o l2
    simp only [viewBondPair] at h
    rw [← Option.some_inj.mp h]
    simp [bondActionPairOf?, isBondActionTag]
  · rename_i l c
    rcases hd : pyInt? c with _ | k <;> rw [hd] at h <;>
      exact absurd h (by simp [viewBondPair])
  · rename_i l c
    rcases hd : pyInt? c with _ | k <;> rw [hd] at h <;>
      exact absurd h (by simp [viewBondPair])
  · exact absurd h (by simp [viewBondPair])

theorem bonds_fwdEffectV_off (v : ActionView) (g : MolGraph) (x y : String)
    (hoff : ∀ p, viewBondPair v = some p → onPair p.1 p.2 x y = false) :
    (fwdEffectV v g).bonds x y = g.bonds x y := by
  cases v with
  | changeBond l1 delta l2 =>
    have h := hoff (l1, l2) rfl
    simp [fwdEffectV, changeBond, bondMap_bonds, h]
  | formBond l1 l2 =>
    have h := hoff (l1, l2) rfl
    simp [fwdEffectV, addBond, bondMap_bonds, h]
  | breakBond l1 l2 =>
    have h := hoff (l1, l2) rfl
    simp [fwdEffectV, removeBond, bondMap_bonds, h]
  | gainRadical l k => rfl
  | loseRadical l k => rfl
  | other => rfl

theorem bonds_revEffectV_off (v : ActionView) (g : MolGraph) (x y : String)
    (hoff : ∀ p, viewBondPair v = some p → onPair p.1 p.2 x y = false) :
    (revEffectV v g).bonds x y = g.bonds x y := by
  cases v with
  | changeBond l1 delta l2 =>
    have h := hoff (l1, l2) rfl
    simp [revEffectV, changeBond, bondMap_bonds, h]
  | formBond l1 l2 =>
    have h := hoff (l1, l2) rfl
    simp [revEffectV, removeBond, bondMap_bonds, h]
  | breakBond l1 l2 =>
    have h := hoff (l1, l2) rfl
    simp [revEffectV, addBond, bondMap_bonds, h]
  | gainRadical l k => rfl
  | loseRadical l k => rfl
  | other => rfl

theorem bonds_fwdAll_off (actions : List (List String)) :
    ∀ (g : MolGraph) (x y : String),
      (∀ q ∈ actions.filterMap bondActionPairOf?, onPair q.1 q.2 x y = false) →
      (fwdAll actions g).bonds x y = g.bonds x y := by
  induction actions with
  | nil => intro g x y _; rfl
  | cons a rest ih =>
    intro g x y hoff
    have hrest : ∀ q ∈ rest.filterMap bondActionPairOf?, onPair q.1 q.2 x y = false := by
      intro q hq
      apply hoff
      rcases List.mem_filterMap.mp hq with ⟨b, hb, hfb⟩
      exact List.mem_filterMap.mpr ⟨b, List.mem_cons_of_mem a hb, hfb⟩
    calc (fwdAll rest (fwdEffect a g)).bonds x y
        = (fwdEffect a g).bonds x y := ih (fwdEffect a g) x y hrest
      _ = g.bonds x y := bonds_fwdEffectV_off (viewAction a) g x y (fun p hp =>
          hoff p (List.mem_filterMap.mpr
            ⟨a, List.mem_cons_self a rest, viewBondPair_sub a p hp⟩))

theorem equiv_fwdEffectV {g h : MolGraph} (e : MolGraph.equiv g h) (v : ActionView) :
    MolGraph.equiv (fwdEffectV v g) (fwdEffectV v h) := by
  cases v with
  | changeBond l1 delta l2 =>
    exact ⟨e.1, fun x y => by simp only [fwdEffectV, changeBond, bondMap_bonds, e.2 x y]⟩
  | formBond l1 l2 =>
    exact ⟨e.1, fun x y => by simp only [fwdEffectV, addBond, bondMap_bonds, e.2 x y]⟩
  | breakBond l1 l2 =>
    exact ⟨e.1, fun x y => by simp only [fwdEffectV, removeBond, bondMap_bonds, e.2 x y]⟩
  | gainRadical l k =>
    exact ⟨fun x => by simp only [fwdEffectV, setRadical_radicals, e.1 x], fun x y => e.2 x y⟩
  | loseRadical l k =>
    exact ⟨fun x => by simp only [fwdEffectV, setRadical_radicals, e.1 x], fun x y => e.2 x y⟩
  | other => exact e

theorem equiv_revEffectV {g h : MolGraph} (e : MolGraph.equiv g h) (v : ActionView) :
    MolGraph.equiv (revEffectV v g) (revEffectV v h) := by
  cases v with
  | changeBond l1 delta l2 =>
    exact ⟨e.1, fun x y => by simp only [revEffectV, changeBond, bondMap_bonds, e.2 x y]⟩
  | formBond l1 l2 =>
    exact ⟨e.1, fun x y => by simp only [revEffectV, removeBond, bondMap_bonds, e.2 x y]⟩
  | breakBond l1 l2 =>
    exact ⟨e.1, fun x y => by simp only [revEffectV, addBond, bondMap_bonds, e.2 x y]⟩
  | gainRadical l k =>
    exact ⟨fun x => by simp only [revEffectV, setRadical_radicals, e.1 x], fun x y => e.2 x y⟩
  | loseRadical l k =>
    exact ⟨fun x => by simp only [revEffectV, setRadical_radicals, e.1 x], fun x y => e.2 x y⟩
  | other => exact e

theorem equiv_fwdAll (actions : List (List String)) :
    ∀ {g h : MolGraph}, MolGraph.equiv g h →
      MolGraph.equiv (fwdAll actions g) (fwdAll actions h) := by
  induction actions with
  | nil => intro g h e; exact e
  | cons a rest ih =>
    intro g h e
    exact ih (equiv_fwdEffectV e (viewAction a))

theorem comm_bondMap_bondMap (a1 b1 : String) (f1 : Option Int → Option Int)
    (a2 b2 : String) (f2 : Option Int → Option Int) (g : MolGraph)
    (hdisj : upPairEq (a1, b1) (a2, b2) = false) :
    MolGraph.equiv (bondMap a1 b1 f1 (bondMap a2 b2 f2 g))
      (bondMap a2 b2 f2 (bondMap a1 b1 f1 g)) := by
  refine ⟨fun l => rfl, fun x y => ?_⟩
  simp only [bondMap_bonds]
  by_cases h1 : onPair a1 b1 x y = true
  · have h2 : onPair a2 b2 x y = false :=
      offPair_of_disjoint (p := (a2, b2)) (q := (a1, b1))
        (by rw [upPairEq_symm]; exact hdisj) h1
    simp [h1, h2]
  · have h1f : onPair a1 b1 x y = false := by simpa using h1
    by_cases h2 : onPair a2 b2 x y = true
    · simp [h1f, h2]
    · have h2f : onPair a2 b2 x y = false := by simpa using h2
      simp [h1f, h2f]

theorem comm_setRadical_setRadical (l1 : String) (d1 : Int) (l2 : String) (d2 : Int)
    (g : MolGraph) :
    MolGraph.equiv (setRadical (setRadical g l2 d2) l1 d1)
      (setRadical (setRadical g l1 d1) l2 d2) := by
  refine ⟨fun x => ?_, fun x y => rfl⟩
  simp only [setRadical_radicals]
  by_cases e1 : (x == l1) = true
  · by_cases e2 : (x == l2) = true
    · simp only [e1, e2, if_pos]
      cases g.radicals x with
      | none => rfl
      | some v => exact congrArg some (by show v + d2 + d1 = v + d1 + d2; omega)
    · simp [e1, e2]
  · simp [e1]

theorem comm_bondMap_setRadical (a b : String) (f : Option Int → Option Int)
    (l : String) (d : Int) (g : MolGraph) :
    MolGraph.equiv (setRadical (bondMap a b f g) l d)
      (bondMap a b f (setRadical g l d)) :=
  ⟨fun _ => rfl, fun _ _ => rfl⟩

theorem comm_revEffectV_fwdEffectV (va vb : ActionView) (g : MolGraph)
    (hdisj : ∀ p q, viewBondPair va = some p → viewBondPair vb = some q →
      upPairEq p q = false) :
    MolGraph.equiv (revEffectV va (fwdEffectV vb g)) (fwdEffectV vb (revEffectV va g)) := by
  cases va with
  | changeBond l1 d1 l2 =>
    cases vb with
    | changeBond m1 d2 m2 =>
      exact comm_bondMap_bondMap l1 l2 (fun o => o.map (fun v => v + -d1))
        m1 m2 (fun o => o.map (fun v => v + d2)) g (hdisj _ _ rfl rfl)
    | formBond m1 m2 =>
      exact comm_bondMap_bondMap l1 l2 (fun o => o.map (fun v => v + -d1))
        m1 m2 (fun _ => some 1) g (hdisj _ _ rfl rfl)
    | breakBond m1 m2 =>
      exact comm_bondMap_bondMap l1 l2 (fun o => o.map (fun v => v + -d1))
        m1 m2 (fun _ => none) g (hdisj _ _ rfl rfl)
    | gainRadical m k =>
      exact equiv_symm
        (comm_bondMap_setRadical l1 l2 (fun o => o.map (fun v => v + -d1)) m k g)
    | loseRadical m k =>
      exact equiv_symm
        (comm_bondMap_setRadical l1 l2 (fun o => o.map (fun v => v + -d1)) m (-k) g)
    | other => exact equiv_refl _
  | formBond l1 l2 =>
    cases vb with
    | changeBond m1 d2 m2 =>
      exact comm_bondMap_bondMap l1 l2 (fun _ => none)
        m1 m2 (fun o => o.map (fun v => v + d2)) g (hdisj _ _ rfl rfl)
    | formBond m1 m2 =>
      exact comm_bondMap_bondMap l1 l2 (fun _ => none)
        m1 m2 (fun _ => some 1) g (hdisj _ _ rfl rfl)
    | breakBond m1 m2 =>
      exact comm_bondMap_bondMap l1 l2 (fun _ => none)
        m1 m2 (fun _ => none) g (hdisj _ _ rfl rfl)
    | gainRadical m k =>
      exact equiv_symm (comm_bondMap_setRadical l1 l2 (fun _ => none) m k g)
    | loseRadical m k =>
      exact equiv_symm (comm_bondMap_setRadical l1 l2 (fun _ => none) m (-k) g)
    | other => exact equiv_refl _
  | breakBond l1 l2 =>
    cases vb with
    | changeBond m1 d2 m2 =>
      exact comm_bondMap_bondMap l1 l2 (fun _ => some 1)
        m1 m2 (fun o => o.map (fun v => v + d2)) g (hdisj _ _ rfl rfl)
    | formBond m1 m2 =>
      exact comm_bondMap_bondMap l1 l2 (fun _ => some 1)
        m1 m2 (fun _ => some 1) g (hdisj _ _ rfl rfl)
    | breakBond m1 m2 =>
      exact comm_bondMap_bondMap l1 l2 (fun _ => some 1)
        m1 m2 (fun _ => none) g (hdisj _ _ rfl rfl)
    | gainRadical m k =>
      exact equiv_symm (comm_bondMap_setRadical l1 l2 (fun _ => some 1) m k g)
    | loseRadical m k =>
      exact equiv_symm (comm_bondMap_setRadical l1 l2 (fun _ => some 1) m (-k) g)
    | other => exact equiv_refl _
  | gainRadical l k =>
    cases vb with
    | changeBond m1 d2 m2 =>
      exact comm_bondMap_setRadical m1 m2 (fun o => o.map (fun v => v + d2)) l (-k) g
    | formBond m1 m2 =>
      exact comm_bondMap_setRadical m1 m2 (fun _ => some 1) l (-k) g
    | breakBond m1 m2 =>
      exact comm_bondMap_setRadical m1 m2 (fun _ => none) l (-k) g
    | gainRadical m j => exact comm_setRadical_setRadical l (-k) m j g
    | loseRadical m j => exact comm_setRadical_setRadical l (-k) m (-j) g
    | other => exact equiv_refl _
  | loseRadical l k =>
    cases vb with
    | changeBond m1 d2 m2 =>
      exact comm_bondMap_setRadical m1 m2 (fun o => o.map (fun v => v + d2)) l k g
    | formBond m1 m2 =>
      exact comm_bondMap_setRadical m1 m2 (fun _ => some 1) l k g
    | breakBond m1 m2 =>
      exact comm_bondMap_setRadical m1 m2 (fun _ => none) l k g
    | gainRadical m j => exact comm_setRadical_setRadical l k m j g
    | loseRadical m j => exact comm_setRadical_setRadical l k m (-j) g
    | other => exact equiv_refl _
  | other => exact equiv_refl _

theorem comm_revEffect_fwdAll (a : List String) (actions : List (List String)) :
    ∀ g : MolGraph,
      (∀ p q, viewBondPair (viewAction a) = some p →
        q ∈ actions.filterMap bondActionPairOf? → upPairEq p q = false) →
      MolGraph.equiv (revEffect a (fwdAll actions g)) (fwdAll actions (revEffect a g)) := by
  induction actions with
  | nil => intro g _; exact equiv_refl _
  | cons b rest ih =>
    intro g hdisj
    have h1 : MolGraph.equiv (revEffect a (fwdAll rest (fwdEffect b g)))
        (fwdAll rest (revEffect a (fwdEffect b g))) := by
      apply ih
      intro p q hp hq
      rcases List.mem_filterMap.mp hq with ⟨c, hc, hfc⟩
      exact hdisj p q hp (List.mem_filterMap.mpr ⟨c, List.mem_cons_of_mem b hc, hfc⟩)
    have h2 : MolGraph.equiv (revEffect a (fwdEffect b g)) (fwdEffect b (revEffect a g)) := by
      apply comm_revEffectV_fwdEffectV
      intro p q hp hq
      exact hdisj p q hp (List.mem_filterMap.mpr
        ⟨b, List.mem_cons_self b rest, viewBondPair_sub b q hq⟩)
    exact equiv_trans h1 (equiv_fwdAll rest h2)

theorem cancel_revV_fwdV (v : ActionView) (g : MolGraph) (hsym : MolGraph.Symm g)
    (hpre : viewPreOK g v = true) :
    MolGraph.equiv (revEffectV v (fwdEffectV v g)) g := by
  cases v with
  | changeBond l1 d l2 =>
    refine ⟨fun l => rfl, fun x y => ?_⟩
    simp only [revEffectV, fwdEffectV, changeBond, bondMap_bonds]
    by_cases h : onPair l1 l2 x y = true
    · simp only [h, if_pos]
      cases g.bonds x y with
      | none => rfl
      | some o => exact congrArg some (by show o + d + -d = o; omega)
    · have hf : onPair l1 l2 x y = false := by simpa using h
      simp [hf]
  | formBond l1 l2 =>
    have hnb : g.bonds l1 l2 = none := by
      cases ho : g.bonds l1 l2 with
      | none => rfl
      | some o =>
        exfalso
        simp [viewPreOK, hasBond, ho] at hpre
    refine ⟨fun l => rfl, fun x y => ?_⟩
    simp only [revEffectV, fwdEffectV, addBond, removeBond, bondMap_bonds]
    by_cases h : onPair l1 l2 x y = true
    · simp only [h, if_pos]
      rcases (onPair_iff l1 l2 x y).mp h with ⟨rfl, rfl⟩ | ⟨rfl, rfl⟩
      · exact hnb.symm
      · rw [hsym]
        exact hnb.symm
    · have hf : onPair l1 l2 x y = false := by simpa using h
      simp [hf]
  | breakBond l1 l2 =>
    have h1b : g.bonds l1 l2 = some 1 := by
      have hx : (getBond g l1 l2 == some 1) = true := by
        simp only [viewPreOK, Bool.and_eq_true] at hpre
        exact hpre.2
      simpa [getBond] using hx
    refine ⟨fun l => rfl, fun x y => ?_⟩
    simp only [revEffectV, fwdEffectV, addBond, removeBond, bondMap_bonds]
    by_cases h : onPair l1 l2 x y = true
    · simp only [h, if_pos]
      rcases (onPair_iff l1 l2 x y).mp h with ⟨rfl, rfl⟩ | ⟨rfl, rfl⟩
      · exact h1b.symm
      · rw [hsym]
        exact h1b.symm
    · have hf : onPair l1 l2 x y = false := by simpa using h
      simp [hf]
  | gainRadical l k =>
    refine ⟨fun x => ?_, fun x y => rfl⟩
    simp only [revEffectV, fwdEffectV, setRadical_radicals]
    by_cases h : (x == l) = true
    · simp only [h, if_pos]
      cases g.radicals x with
      | none => rfl
      | some v => exact congrArg some (by show v + k + -k = v; omega)
    · simp [h]
  | loseRadical l k =>
    refine ⟨fun x => ?_, fun x y => rfl⟩
    simp only [revEffectV, fwdEffectV, setRadical_radicals]
    by_cases h : (x == l) = true
    · simp only [h, if_pos]
      cases g.radicals x with
      | none => rfl
      | some v => exact congrArg some (by show v + -k + k = v; omega)
    · simp [h]
  | other => simp [viewPreOK] at hpre

theorem actionPreOK_view (g : MolGraph) (a : List String) (h : actionPreOK g a = true) :
    viewPreOK g (viewAction a) = true := by
  unfold actionPreOK at h
  split at h
  · rename_i l1 d l2
    rcases hd : pyInt? d with _ | k
    · rw [hd] at h
      simp at h
    · have hview : viewAction ["CHANGE_BOND", l1, d, l2] = ActionView.changeBond l1 k l2 := by
        simp [viewAction, hd]
      rw [hview]
      rw [hd] at h
      simpa [viewPreOK] using h
  · rename_i l1 o l2
    have hview : viewAction ["FORM_BOND", l1, o, l2] = ActionView.formBond l1 l2 := by
      simp [viewAction]
    rw [hview]
    simpa [viewPreOK] using h
  · rename_i l1 o l2
    have hview : viewAction ["BREAK_BOND", l1, o, l2] = ActionView.breakBond l1 l2 := by
      simp [viewAction]
    rw [hview]
    simpa [viewPreOK] using h
  · rename_i l c
    rcases hd : pyInt? c with _ | k
    · rw [hd] at h
      simp at h
    · have hview : viewAction ["GAIN_RADICAL", l, c] =
          ActionView.gainRadical l (Int.ofNat k.toNat) := by
        simp [viewAction, hd]
      rw [hview]
      rw [hd] at h
      simpa [viewPreOK] using h
  · rename_i l c
    rcases hd : pyInt? c with _ | k
    · rw [hd] at h
      simp at h
    · have hview : viewAction ["LOSE_RADICAL", l, c] =
          ActionView.loseRadical l (Int.ofNat k.toNat) := by
        simp [viewAction, hd]
      rw [hview]
      rw [hd] at h
      simpa [viewPreOK] using h
  · exact absurd h (by simp)

theorem actionPreOK_congr (g g2 : MolGraph) (b : List String)
    (hpres : ∀ l, (g2.radicals l).isSome = (g.radicals l).isSome)
    (hbond : ∀ p, bondActionPairOf? b = some p → g2.bonds p.1 p.2 = g.bonds p.1 p.2) :
    actionPreOK g2 b = actionPreOK g b := by
  unfold actionPreOK
  split
  · rename_i l1 d l2
    have hb := hbond (l1, l2) (by simp [bondActionPairOf?, isBondActionTag])
    simp only [getLabeledAtom, hasBond, getBond, hpres l1, hpres l2, hb]
  · rename_i l1 o l2
    have hb := hbond (l1, l2) (by simp [bondActionPairOf?, isBondActionTag])
    simp only [getLabeledAtom, hasBond, getBond, hpres l1, hpres l2, hb]
  · rename_i l1 o l2
    have hb := hbond (l1, l2) (by simp [bondActionPairOf?, isBondActionTag])
    simp only [getLabeledAtom, hasBond, getBond, hpres l1, hpres l2, hb]
  · rename_i l c
    simp only [getLabeledAtom, hpres l]
  · rename_i l c
    simp only [getLabeledAtom, hpres l]
  · rfl

theorem isNone_false_of_isSome {o : Option Int} (h : o.isSome = true) :
    o.isNone = false := by
  cases o
  · exact absurd h (by simp)
  · rfl

theorem applyAction_fwd_ok (g : MolGraph) (a : List String)
    (hpre : actionPreOK g a = true) :
    applyAction g true a = Except.ok (fwdEffect a g) := by
  unfold actionPreOK at hpre
  split at hpre
  · rename_i l1 d l2
    simp only [Bool.and_eq_true] at hpre
    obtain ⟨⟨⟨⟨hdsome, h1⟩, h2⟩, hne⟩, hbd⟩ := hpre
    rcases hd : pyInt? d with _ | k
    · rw [hd] at hdsome
      exact absurd hdsome (by simp)
    rcases hgb : g.bonds l1 l2 with _ | o
    · exfalso
      simp [hasBond, hgb] at hbd
    have hn1 : (getLabeledAtom g l1).isNone = false := isNone_false_of_isSome h1
    have hn2 : (getLabeledAtom g l2).isNone = false := isNone_false_of_isSome h2
    have hne2 : (l1 == l2) = false := by simpa using hne
    simp [applyAction, fwdEffect, viewAction, fwdEffectV, isBondActionTag, getBond,
      hn1, hn2, hne2, hd, hgb]
  · rename_i l1 o l2
    simp only [Bool.and_eq_true] at hpre
    obtain ⟨⟨⟨h1, h2⟩, hne⟩, hnb⟩ := hpre
    have hn1 : (getLabeledAtom g l1).isNone = false := isNone_false_of_isSome h1
    have hn2 : (getLabeledAtom g l2).isNone = false := isNone_false_of_isSome h2
    have hne2 : (l1 == l2) = false := by simpa using hne
    simp [applyAction, fwdEffect, viewAction, fwdEffectV, isBondActionTag,
      hn1, hn2, hne2]
  · rename_i l1 o l2
    simp only [Bool.and_eq_true] at hpre
    obtain ⟨⟨⟨h1, h2⟩, hne⟩, hb1⟩ := hpre
    have hn1 : (getLabeledAtom g l1).isNone = false := isNone_false_of_isSome h1
    have hn2 : (getLabeledAtom g l2).isNone = false := isNone_false_of_isSome h2
    have hne2 : (l1 == l2) = false := by simpa using hne
    have hsome : hasBond g l1 l2 = true := by
      have : getBond g l1 l2 = some 1 := by simpa [getBond] using hb1
      simp [hasBond, getBond] at this ⊢
      rw [this]
      rfl
    simp [applyAction, fwdEffect, viewAction, fwdEffectV, isBondActionTag,
      hn1, hn2, hne2, hsome]
  · rename_i l c
    simp only [Bool.and_eq_true] at hpre
    obtain ⟨hcsome, hl⟩ := hpre
    rcases hd : pyInt? c with _ | k
    · rw [hd] at hcsome
      exact absurd hcsome (by simp)
    rcases hatom : getLabeledAtom g l with _ | v
    · exfalso
      rw [hatom] at hl
      exact absurd hl (by simp)
    simp [applyAction, fwdEffect, viewAction, fwdEffectV, isBondActionTag,
      isRadicalActionTag, hd, hatom]
  · rename_i l c
    simp only [Bool.and_eq_true] at hpre
    obtain ⟨hcsome, hl⟩ := hpre
    rcases hd : pyInt? c with _ | k
    · rw [hd] at hcsome
      exact absurd hcsome (by simp)
    rcases hatom : getLabeledAtom g l with _ | v
    · exfalso
      rw [hatom] at hl
      exact absurd hl (by simp)
    simp [applyAction, fwdEffect, viewAction, fwdEffectV, isBondActionTag,
      isRadicalActionTag, hd, hatom]
  · exact absurd hpre (by simp)

theorem applyAction_rev_ok (g : MolGraph) (a : List String)
    (hrev : actionRevOK g a = true) :
    applyAction g false a = Except.ok (revEffect a g) := by
  unfold actionRevOK at hrev
  split at hrev
  · rename_i l1 d l2
    simp only [Bool.and_eq_true] at hrev
    obtain ⟨⟨⟨⟨hdsome, h1⟩, h2⟩, hne⟩, hbd⟩ := hrev
    rcases hd : pyInt? d with _ | k
    · rw [hd] at hdsome
      exact absurd hdsome (by simp)
    rcases hgb : g.bonds l1 l2 with _ | o
    · exfalso
      simp [hasBond, hgb] at hbd
    have hn1 : (getLabeledAtom g l1).isNone = false := isNone_false_of_isSome h1
    have hn2 : (getLabeledAtom g l2).isNone = false := isNone_false_of_isSome h2
    have hne2 : (l1 == l2) = false := by simpa using hne
    simp [applyAction, revEffect, viewAction, revEffectV, isBondActionTag, getBond,
      hn1, hn2, hne2, hd, hgb]
  · rename_i l1 o l2
    simp only [Bool.and_eq_true] at hrev
    obtain ⟨⟨⟨h1, h2⟩, hne⟩, hbd⟩ := hrev
    have hn1 : (getLabeledAtom g l1).isNone = false := isNone_false_of_isSome h1
    have hn2 : (getLabeledAtom g l2).isNone = false := isNone_false_of_isSome h2
    have hne2 : (l1 == l2) = false := by simpa using hne
    simp [applyAction, revEffect, viewAction, revEffectV, isBondActionTag,
      hn1, hn2, hne2, hbd]
  · rename_i l1 o l2
    simp only [Bool.and_eq_true] at hrev
    obtain ⟨⟨h1, h2⟩, hne⟩ := hrev
    have hn1 : (getLabeledAtom g l1).isNone = false := isNone_false_of_isSome h1
    have hn2 : (getLabeledAtom g l2).isNone = false := isNone_false_of_isSome h2
    have hne2 : (l1 == l2) = false := by simpa using hne
    simp [applyAction, revEffect, viewAction, revEffectV, isBondActionTag,
      hn1, hn2, hne2]
  · rename_i l c
    simp only [Bool.and_eq_true] at hrev
    obtain ⟨hcsome, hl⟩ := hrev
    rcases hd : pyInt? c with _ | k
    · rw [hd] at hcsome
      exact absurd hcsome (by simp)
    rcases hatom : getLabeledAtom g l with _ | v
    · exfalso
      rw [hatom] at hl
      exact absurd hl (by simp)
    simp [applyAction, revEffect, viewAction, revEffectV, isBondActionTag,
      isRadicalActionTag, hd, hatom]
  · rename_i l c
    simp only [Bool.and_eq_true] at hrev
    obtain ⟨hcsome, hl⟩ := hrev
    rcases hd : pyInt? c with _ | k
    · rw [hd] at hcsome
      exact absurd hcsome (by simp)
    rcases hatom : getLabeledAtom g l with _ | v
    · exfalso
      rw [hatom] at hl
      exact absurd hl (by simp)
    simp [applyAction, revEffect, viewAction, revEffectV, isBondActionTag,
      isRadicalActionTag, hd, hatom]
  · exact absurd hrev (by simp)

theorem actionRevOK_after (g h2 : MolGraph) (a : List String)
    (hpre : actionPreOK g a = true)
    (hpres : ∀ l, (h2.radicals l).isSome = (g.radicals l).isSome)
    (hbond : ∀ p, bondActionPairOf? a = some p →
      h2.bonds p.1 p.2 = (fwdEffect a g).bonds p.1 p.2) :
    actionRevOK h2 a = true := by
  unfold actionPreOK at hpre
  split at hpre
  · rename_i l1 d l2
    simp only [Bool.and_eq_true] at hpre
    obtain ⟨⟨⟨⟨hdsome, h1⟩, hlv2⟩, hne⟩, hbd⟩ := hpre
    rcases hd : pyInt? d with _ | k
    · rw [hd] at hdsome
      exact absurd hdsome (by simp)
    rcases hgb : g.bonds l1 l2 with _ | o
    · exfalso
      simp [hasBond, hgb] at hbd
    have hb2 : h2.bonds l1 l2 = some (o + k) := by
      rw [hbond (l1, l2) (by simp [bondActionPairOf?, isBondActionTag])]
      simp [fwdEffect, viewAction, hd, fwdEffectV, changeBond, bondMap_bonds,
        onPair_self, hgb]
    simp [actionRevOK, getLabeledAtom, hasBond, hpres l1, hpres l2, hd, hb2]
    exact ⟨⟨by simpa [getLabeledAtom] using h1, by simpa [getLabeledAtom] using hlv2⟩,
      by simpa using hne⟩
  · rename_i l1 o l2
    simp only [Bool.and_eq_true] at hpre
    obtain ⟨⟨⟨h1, hlv2⟩, hne⟩, hnb⟩ := hpre
    have hb2 : h2.bonds l1 l2 = some 1 := by
      rw [hbond (l1, l2) (by simp [bondActionPairOf?, isBondActionTag])]
      simp [fwdEffect, viewAction, fwdEffectV, addBond, bondMap_bonds, onPair_self]
    simp [actionRevOK, getLabeledAtom, hasBond, hpres l1, hpres l2, hb2]
    exact ⟨⟨by simpa [getLabeledAtom] using h1, by simpa [getLabeledAtom] using hlv2⟩,
      by simpa using hne⟩
  · rename_i l1 o l2
    simp only [Bool.and_eq_true] at hpre
    obtain ⟨⟨⟨h1, hlv2⟩, hne⟩, hb1⟩ := hpre
    simp [actionRevOK, getLabeledAtom, hpres l1, hpres l2]
    exact ⟨⟨by simpa [getLabeledAtom] using h1, by simpa [getLabeledAtom] using hlv2⟩,
      by simpa using hne⟩
  · rename_i l c
    simp only [Bool.and_eq_true] at hpre
    obtain ⟨hcsome, hl⟩ := hpre
    simp [actionRevOK, getLabeledAtom, hpres l, hcsome]
    simpa [getLabeledAtom] using hl
  · rename_i l c
    simp only [Bool.and_eq_true] at hpre
    obtain ⟨hcsome, hl⟩ := hpre
    simp [actionRevOK, getLabeledAtom, hpres l, hcsome]
    simpa [getLabeledAtom] using hl
  · exact absurd hpre (by simp)

theorem roundtripAux (actions : List (List String)) :
    ∀ g : MolGraph, MolGraph.Symm g →
      actions.all (actionPreOK g) = true →
      pairwiseDisjointPairs (actions.filterMap bondActionPairOf?) = true →
      applyActions g true actions = Except.ok (fwdAll actions g) ∧
        ∀ h, MolGraph.equiv h (fwdAll actions g) →
          ∃ h2, applyActions h false actions = Except.ok h2 ∧ MolGraph.equiv h2 g := by
  induction actions with
  | nil =>
    intro g hsym hall hdisj
    exact ⟨rfl, fun h he => ⟨h, rfl, he⟩⟩
  | cons a rest ih =>
    intro g hsym hall hdisj
    rw [List.all_cons, Bool.and_eq_true] at hall
    obtain ⟨hpa, hrest⟩ := hall
    have hdisjrest : pairwiseDisjointPairs (rest.filterMap bondActionPairOf?) = true := by
      cases hfa : bondActionPairOf? a with
      | none =>
        rw [List.filterMap_cons_none hfa] at hdisj
        exact hdisj
      | some pa =>
        rw [List.filterMap_cons_some hfa] at hdisj
        simp only [pairwiseDisjointPairs, Bool.and_eq_true] at hdisj
        exact hdisj.2
    have hheaddisj : ∀ pa, bondActionPairOf? a = some pa →
        ∀ q ∈ rest.filterMap bondActionPairOf?, upPairEq pa q = false := by
      intro pa hfa q hq
      rw [List.filterMap_cons_some hfa] at hdisj
      simp only [pairwiseDisjointPairs, Bool.and_eq_true, List.all_eq_true] at hdisj
      have hh := hdisj.1 q hq
      simpa using hh
    have hstep : applyAction g true a = Except.ok (fwdEffect a g) :=
      applyAction_fwd_ok g a hpa
    have hsymga : MolGraph.Symm (fwdEffect a g) := symm_fwdEffectV hsym (viewAction a)
    have hrestga : rest.all (actionPreOK (fwdEffect a g)) = true := by
      rw [List.all_eq_true] at hrest ⊢
      intro b hb
      rw [actionPreOK_congr g (fwdEffect a g) b
        (fun l => isSome_radicals_fwdEffectV (viewAction a) g l)
        (fun p hp => bonds_fwdEffectV_off (viewAction a) g p.1 p.2 (fun pa hpa2 => by
          have hfa := viewBondPair_sub a pa hpa2
          have hdq := hheaddisj pa hfa p
            (List.mem_filterMap.mpr ⟨b, hb, hp⟩)
          exact offPair_of_disjoint hdq (onPair_self p.1 p.2)))]
      exact hrest b hb
    obtain ⟨hfwd_rest, _⟩ := ih (fwdEffect a g) hsymga hrestga hdisjrest
    obtain ⟨_, hrev_rest_g⟩ := ih g hsym hrest hdisjrest
    constructor
    · rw [show applyActions g true (a :: rest) =
          (match applyAction g true a with
            | Except.error e => Except.error e
            | Except.ok g2 => applyActions g2 true rest) from rfl, hstep]
      exact hfwd_rest
    · intro h he
      have hpres_h : ∀ l, (h.radicals l).isSome = (g.radicals l).isSome := by
        intro l
        rw [he.1 l]
        rw [show (fwdAll (a :: rest) g) = fwdAll rest (fwdEffect a g) from rfl,
          isSome_radicals_fwdAll rest (fwdEffect a g) l]
        exact isSome_radicals_fwdEffectV (viewAction a) g l
      have hbond_h : ∀ p, bondActionPairOf? a = some p →
          h.bonds p.1 p.2 = (fwdEffect a g).bonds p.1 p.2 := by
        intro p hp
        rw [he.2 p.1 p.2]
        exact bonds_fwdAll_off rest (fwdEffect a g) p.1 p.2 (fun q hq => by
          have hdq := hheaddisj p hp q hq
          exact offPair_of_disjoint (by rw [upPairEq_symm]; exact hdq)
            (onPair_self p.1 p.2))
      have hreva : applyAction h false a = Except.ok (revEffect a h) :=
        applyAction_rev_ok h a (actionRevOK_after g h a hpa hpres_h hbond_h)
      have hchain : MolGraph.equiv (revEffect a h) (fwdAll rest g) := by
        have c1 : MolGraph.equiv (revEffect a h)
            (revEffect a (fwdAll rest (fwdEffect a g))) :=
          equiv_revEffectV he (viewAction a)
        have c2 : MolGraph.equiv (revEffect a (fwdAll rest (fwdEffect a g)))
            (fwdAll rest (revEffect a (fwdEffect a g))) := by
          apply comm_revEffect_fwdAll
          intro p q hp hq
          exact hheaddisj p (viewBondPair_sub a p hp) q hq
        have c3 : MolGraph.equiv (revEffect a (fwdEffect a g)) g :=
          cancel_revV_fwdV (viewAction a) g hsym (actionPreOK_view g a hpa)
        exact equiv_trans c1 (equiv_trans c2 (equiv_fwdAll rest c3))
      obtain ⟨h2, hh2, hh2e⟩ := hrev_rest_g (revEffect a h) hchain
      refine ⟨h2, ?_, hh2e⟩
      rw [show applyActions h false (a :: rest) =
          (match applyAction h false a with
            | Except.error e => Except.error e
            | Except.ok g2 => applyActions g2 false rest) from rfl, hreva]
      exact hh2

/-- C7 (amended): for every symmetric labeled graph and every recipe whose
actions are applicable to it -- resolvable distinct labels, CHANGE_BOND
over an existing bond, FORM_BOND over a missing bond, BREAK_BOND over an
order-1 bond -- with no two bond actions touching the same unordered label
pair, `applyForward` succeeds and `applyReverse` of the result restores a
graph with the same atom labels, radical counts and bond orders. -/
theorem recipe_roundtrip (g : MolGraph) (actions : List (List String))
    (hsym : MolGraph.Symm g) (hok : recipeRoundTripOK g actions = true) :
    ∃ g1 g2, applyForward g actions = Except.ok g1 ∧
      applyReverse g1 actions = Except.ok g2 ∧ MolGraph.equiv g2 g := by
  rw [recipeRoundTripOK, Bool.and_eq_true] at hok
  obtain ⟨hfwd, hrev⟩ := roundtripAux actions g hsym hok.1 hok.2
  obtain ⟨g2, hg2, hg2e⟩ := hrev (fwdAll actions g) (equiv_refl _)
  exact ⟨fwdAll actions g, g2, hfwd, hg2, hg2e⟩

theorem find?_congr {α : Type} {p q : α → Bool} (hpq : ∀ a, p a = q a) :
    ∀ l : List α, l.find? p = l.find? q := by
  intro l
  induction l with
  | nil => rfl
  | cons x xs ih =>
    cases hx : q x with
    | false =>
      rw [List.find?_cons_of_neg _ (by simp [hpq x, hx]),
        List.find?_cons_of_neg _ (by simp [hx])]
      exact ih
    | true =>
      rw [List.find?_cons_of_pos _ (by simp [hpq x, hx]),
        List.find?_cons_of_pos _ (by simp [hx])]

theorem ofLists_symm (rads : List (String × Int)) (bnds : List (String × String × Int)) :
    MolGraph.Symm (MolGraph.ofLists rads bnds) := by
  intro x y
  show ((bnds.find? (fun b => onPair b.1 b.2.1 x y)).map (fun b => b.2.2)) =
    ((bnds.find? (fun b => onPair b.1 b.2.1 y x)).map (fun b => b.2.2))
  rw [find?_congr (fun b => onPair_symm b.1 b.2.1 x y) bnds]

/-- Witness for C7: a three-action recipe (break a single bond, form a new
bond elsewhere, gain a radical) on a concrete three-atom graph. -/
theorem recipe_roundtrip_witness :
    MolGraph.Symm (MolGraph.ofLists [("*1", 1), ("*2", 0), ("*3", 0)]
        [("*2", "*3", 1)]) ∧
      recipeRoundTripOK (MolGraph.ofLists [("*1", 1), ("*2", 0), ("*3", 0)]
          [("*2", "*3", 1)])
        [["BREAK_BOND", "*2", "S", "*3"], ["FORM_BOND", "*1", "S", "*2"],
          ["GAIN_RADICAL", "*3", "1"]] = true ∧
      ∃ g1 g2, applyForward (MolGraph.ofLists [("*1", 1), ("*2", 0), ("*3", 0)]
            [("*2", "*3", 1)])
          [["BREAK_BOND", "*2", "S", "*3"], ["FORM_BOND", "*1", "S", "*2"],
            ["GAIN_RADICAL", "*3", "1"]] = Except.ok g1 ∧
        applyReverse g1 [["BREAK_BOND", "*2", "S", "*3"], ["FORM_BOND", "*1", "S", "*2"],
            ["GAIN_RADICAL", "*3", "1"]] = Except.ok g2 ∧
        MolGraph.equiv g2 (MolGraph.ofLists [("*1", 1), ("*2", 0), ("*3", 0)]
          [("*2", "*3", 1)]) :=
  ⟨ofLists_symm _ _, by decide, recipe_roundtrip _ _ (ofLists_symm _ _) (by decide)⟩

/-- C7 counterexample: BREAK_BOND on a double bond.  The forward
application removes the order-2 bond; the reverse application re-forms it
with order 1 (`Bond(atom1, atom2, order='S')` on family.py line 231), so
the round trip does not restore the bond order even though both passes
succeed. -/
theorem recipe_roundtrip_counterexample :
    ∃ g1 g2,
      applyForward (MolGraph.ofLists [("*1", 0), ("*2", 0)] [("*1", "*2", 2)])
          [["BREAK_BOND", "*1", "S", "*2"]] = Except.ok g1 ∧
        applyReverse g1 [["BREAK_BOND", "*1", "S", "*2"]] = Except.ok g2 ∧
        getBond (MolGraph.ofLists [("*1", 0), ("*2", 0)] [("*1", "*2", 2)]) "*1" "*2" =
          some 2 ∧
        getBond g2 "*1" "*2" = some 1 ∧
        ¬ MolGraph.equiv g2 (MolGraph.ofLists [("*1", 0), ("*2", 0)] [("*1", "*2", 2)]) := by
  refine ⟨_, _, rfl, rfl, rfl, rfl, ?_⟩
  intro hcontra
  exact absurd (hcontra.2 "*1" "*2") (by decide)

end RMG
